import Mathlib

/-!
# Verification of the Automation-Script orchestration subsystem

Shallow embedding, in Lean 4, of the parts of the repository that the
specification's testable properties talk about:

* the marker-delimited section patcher of `Checker-2.py`
  (`extract_section_html`, `replace_section_html`) and of
  `CPT-Code-Modification-Shortcode.py` (`update_page_file_with_code`);
* the retry/backoff wrappers of `CPT-Code-Modification-Shortcode.py`
  (`retry_on_rate_limit`) and `ACF_Generator.py` (the retry loop of
  `process_acf_file`);
* the thread-safe rate limiter of `Checker-2.py` / `figam.py`
  (`ThreadSafeRateLimiter.wait_if_needed`);
* the MongoDB aggregation pipeline of
  `CPT-Code-Modification-Shortcode.py::fetch_cpt_sections_from_mongodb`
  that partitions (page, section) pairs into `uniqueSections` and
  `similarSections`.

Text is modelled as `List Char`.  The Python `re` patterns in the patcher
are built exclusively from `re.escape`-d literals joined by a non-greedy
`(.*?)` in DOTALL mode, so their matching semantics reduce to literal
first-occurrence search, which `splitFirst` below implements.
-/

/-! ## Literal first-occurrence search

`splitFirst pat s` returns `some (p, r)` when `pat` occurs in `s`,
where `s = p ++ pat ++ r` and `p` is the shortest such prefix (the
leftmost occurrence), and `none` when `pat` does not occur in `s`.
This is the semantics shared by Python's `str.find` and by a `re`
search for `re.escape(pat)`. -/
def splitFirst {α : Type} [DecidableEq α] (pat : List α) :
    List α → Option (List α × List α)
  | [] => if pat.isPrefixOf ([] : List α) then some ([], []) else none
  | c :: t =>
    if pat.isPrefixOf (c :: t) then some ([], (c :: t).drop pat.length)
    else (splitFirst pat t).map (fun pr => (c :: pr.1, pr.2))

namespace splitFirst

variable {α : Type} [DecidableEq α]

theorem eq_append {pat s p r : List α}
    (h : splitFirst pat s = some (p, r)) : s = p ++ pat ++ r := by
  induction s generalizing p r with
  | nil =>
    unfold splitFirst at h
    split at h
    · next hpre =>
      have : pat = [] := List.prefix_nil.mp (List.isPrefixOf_iff_prefix.mp hpre)
      simp_all
    · simp_all
  | cons c t ih =>
    unfold splitFirst at h
    split at h
    · next hpre =>
      have hpre' : pat <+: c :: t := List.isPrefixOf_iff_prefix.mp hpre
      obtain ⟨u, hu⟩ := hpre'
      obtain ⟨hp, hr⟩ := by simpa using h
      subst hp
      rw [← hu, ← hr, ← hu]
      simp [List.drop_left]
    · next hpre =>
      simp only [Option.map_eq_some'] at h
      obtain ⟨⟨p', r'⟩, hrec, heq⟩ := h
      obtain ⟨hp, hr⟩ := by simpa using heq
      subst hp; subst hr
      simpa using ih hrec

theorem self_append (pat r : List α) :
    splitFirst pat (pat ++ r) = some ([], r) := by
  cases hpr : pat ++ r with
  | nil =>
    have hp : pat = [] := by
      cases pat with
      | nil => rfl
      | cons a t => simp at hpr
    have hr : r = [] := by
      cases pat <;> simp_all
    subst hp; subst hr
    simp [splitFirst]
  | cons c t =>
    have hpre : pat.isPrefixOf (c :: t) := by
      rw [← hpr]
      exact List.isPrefixOf_iff_prefix.mpr ⟨r, rfl⟩
    unfold splitFirst
    rw [if_pos hpre, ← hpr, List.drop_left]

/-- Replacing the part after the leftmost occurrence does not move the
leftmost occurrence. -/
theorem congr_suffix {pat s p r : List α}
    (h : splitFirst pat s = some (p, r)) (r' : List α) :
    splitFirst pat (p ++ pat ++ r') = some (p, r') := by
  induction s generalizing p r with
  | nil =>
    unfold splitFirst at h
    split at h
    · next hpre =>
      have hp : pat = [] := List.prefix_nil.mp (List.isPrefixOf_iff_prefix.mp hpre)
      obtain ⟨h1, h2⟩ := by simpa using h
      subst h1; subst hp
      simpa using self_append ([] : List α) r'
    · simp_all
  | cons c t ih =>
    unfold splitFirst at h
    split at h
    · next hpre =>
      obtain ⟨h1, h2⟩ := by simpa using h
      subst h1
      simpa using self_append pat r'
    · next hpre =>
      simp only [Option.map_eq_some'] at h
      obtain ⟨⟨p', r₂⟩, hrec, heq⟩ := h
      simp only at heq
      obtain ⟨hp, hr⟩ := Prod.mk.inj heq
      subst hp; subst hr
      have ht : t = p' ++ pat ++ r₂ := eq_append hrec
      have hpre' : ¬ pat.isPrefixOf (c :: (p' ++ pat ++ r')) := by
        intro hcon
        apply hpre
        have hlen : pat.length ≤ (c :: (p' ++ pat)).length := by
          simp [List.length_append]; omega
        have h1 : pat <+: c :: (p' ++ pat ++ r') :=
          List.isPrefixOf_iff_prefix.mp hcon
        have htk : pat = (c :: (p' ++ pat ++ r')).take pat.length :=
          List.prefix_iff_eq_take.mp h1
        have htk2 : (c :: (p' ++ pat ++ r')).take pat.length
            = (c :: (p' ++ pat ++ r₂)).take pat.length := by
          have e1 : c :: (p' ++ pat ++ r') = (c :: (p' ++ pat)) ++ r' := by
            simp
          have e2 : c :: (p' ++ pat ++ r₂) = (c :: (p' ++ pat)) ++ r₂ := by
            simp
          rw [e1, e2, List.take_append_of_le_length hlen,
            List.take_append_of_le_length hlen]
        apply List.isPrefixOf_iff_prefix.mpr
        rw [ht]
        exact List.prefix_iff_eq_take.mpr (htk.trans htk2)
      show splitFirst pat (c :: (p' ++ pat ++ r')) = _
      unfold splitFirst
      rw [if_neg hpre']
      rw [ih hrec]
      rfl

theorem isSome_of_infix {pat s : List α} (h : pat <:+: s) :
    (splitFirst pat s).isSome := by
  obtain ⟨p, q, hpq⟩ := h
  subst hpq
  induction p with
  | nil => simpa using congrArg Option.isSome (self_append pat q)
  | cons c p ih =>
    show (splitFirst pat (c :: (p ++ pat ++ q))).isSome
    unfold splitFirst
    split
    · simp
    · simpa using ih

theorem infix_of_eq_some {pat s p r : List α}
    (h : splitFirst pat s = some (p, r)) : pat <:+: s :=
  ⟨p, r, (eq_append h).symm⟩

theorem eq_none_iff {pat s : List α} :
    splitFirst pat s = none ↔ ¬ pat <:+: s := by
  constructor
  · intro h hinf
    have := isSome_of_infix hinf
    rw [h] at this
    simp at this
  · intro h
    cases hs : splitFirst pat s with
    | none => rfl
    | some pr =>
      obtain ⟨p₁, r₁⟩ := pr
      exact absurd (infix_of_eq_some hs) h

end splitFirst

theorem splitFirst_nil {α : Type} [DecidableEq α] {pat : List α} (h : pat ≠ []) :
    splitFirst pat ([] : List α) = none := by
  have hpre : ¬ pat.isPrefixOf ([] : List α) := fun hcon =>
    h (List.prefix_nil.mp (List.isPrefixOf_iff_prefix.mp hcon))
  simp [splitFirst, hpre]

/-! ## The section patcher

`Checker-2.py` delimits a named region of a host text with the literal
comments `<!-- START: name -->` / `<!-- END: name -->`
(`start_comment` / `end_comment` in `extract_section_html` and
`replace_section_html`; `CPT-Code-Modification-Shortcode.py` builds the
same strings under the names `start_marker` / `end_marker`). -/

def nl : List Char := ['\n']

def start_comment (section_name : List Char) : List Char :=
  String.toList "<!-- START: " ++ section_name ++ String.toList " -->"

def end_comment (section_name : List Char) : List Char :=
  String.toList "<!-- END: " ++ section_name ++ String.toList " -->"

/-- `True`-on-whitespace predicate of Python's `str.strip()`,
restricted to the ASCII whitespace characters. -/
def isPySpace (c : Char) : Bool :=
  c == ' ' || c == '\t' || c == '\n' || c == '\r' || c == '\x0b' || c == '\x0c'

/-- Python's `str.strip()`: drop leading and trailing whitespace. -/
def pyStrip (s : List Char) : List Char :=
  ((s.dropWhile isPySpace).reverse.dropWhile isPySpace).reverse

/-- One pass of `pattern.sub(repl, s)` for the pattern
`re.escape(sM) + "(.*?)" + re.escape(eM)` compiled with `re.DOTALL`:
scan left to right; each match starts at the leftmost occurrence of the
literal `sM` and extends (non-greedily) to the first following
occurrence of the literal `eM`; every non-overlapping match is replaced
by `repl` and scanning resumes after the match.

The replacement string is inserted literally.  Python's `re.sub`
additionally processes backslash template escapes in `repl`
(`\g<0>` expands to the whole match, the two characters `\` `n` become
a newline, and an invalid escape such as `\d` raises `re.error`), so
this definition models `pattern.sub` exactly for backslash-free `repl`
and diverges from the program outside that domain.  Accordingly the
idempotence and isolation theorems below (claims C1, C2) carry explicit
no-backslash hypotheses on the text entering the replacement string;
the round-trip theorem (claim C10) is scoped to backslash-free bodies
by its claim's own wording; and the concrete counterexamples use only
backslash-free text.  The `sM = []` guard is needed only for
termination; the start markers built by the scripts are never empty. -/
def subAllFuel (sM eM repl : List Char) : Nat → List Char → List Char
  | 0, s => s
  | fuel + 1, s =>
    if sM = [] then s
    else
      match splitFirst sM s with
      | none => s
      | some (p, r) =>
        match splitFirst eM r with
        | none => s
        | some (_, q) => p ++ repl ++ subAllFuel sM eM repl fuel q

/-- The global substitution itself; `s.length` is enough fuel because
every replaced match consumes at least the (nonempty) start marker. -/
def subAll (sM eM repl s : List Char) : List Char :=
  subAllFuel sM eM repl s.length s

theorem subAllFuel_nil (sM eM repl : List Char) (f : Nat) :
    subAllFuel sM eM repl f [] = [] := by
  cases f with
  | zero => rfl
  | succ f =>
    rw [subAllFuel]
    split
    · rfl
    · split
      · rfl
      · next p r heq =>
        by_cases hS : sM = []
        · simp_all
        · rw [splitFirst_nil hS] at heq; cases heq

theorem subAllFuel_congr {sM eM repl : List Char} :
    ∀ f g s, s.length ≤ f → s.length ≤ g →
      subAllFuel sM eM repl f s = subAllFuel sM eM repl g s := by
  intro f
  induction f using Nat.strong_induction_on with
  | _ f ihf =>
    intro g s hf hg
    cases f with
    | zero =>
      have hs : s = [] := List.length_eq_zero.mp (Nat.le_zero.mp hf)
      subst hs
      rw [subAllFuel_nil, subAllFuel_nil]
    | succ f =>
      cases g with
      | zero =>
        have hs : s = [] := List.length_eq_zero.mp (Nat.le_zero.mp hg)
        subst hs
        rw [subAllFuel_nil, subAllFuel_nil]
      | succ g =>
        rw [subAllFuel, subAllFuel]
        by_cases hS : sM = []
        · rw [if_pos hS, if_pos hS]
        · rw [if_neg hS, if_neg hS]
          cases h1 : splitFirst sM s with
          | none => rfl
          | some pr =>
            obtain ⟨p, r⟩ := pr
            dsimp only
            cases h2 : splitFirst eM r with
            | none => rfl
            | some mq =>
              obtain ⟨m, q⟩ := mq
              dsimp only
              have hqs : q.length < s.length := by
                have e1 := splitFirst.eq_append h1
                have e2 := splitFirst.eq_append h2
                have hpos : 0 < sM.length := List.length_pos.mpr hS
                rw [e1, e2]
                simp only [List.length_append]
                omega
              rw [ihf f (Nat.lt_succ_self f) g q (by omega) (by omega)]

theorem subAllFuel_eq_subAll {sM eM repl : List Char} {f : Nat} {s : List Char}
    (hf : s.length ≤ f) : subAllFuel sM eM repl f s = subAll sM eM repl s :=
  subAllFuel_congr f s.length s hf le_rfl

theorem subAll_start_none {sM eM repl s : List Char}
    (h : splitFirst sM s = none) : subAll sM eM repl s = s := by
  rw [subAll]
  cases hl : s.length with
  | zero => rfl
  | succ n =>
    rw [subAllFuel]
    split
    · rfl
    · split
      · rfl
      · next p r heq => rw [h] at heq; cases heq

theorem subAll_end_none {sM eM repl s p r : List Char}
    (h1 : splitFirst sM s = some (p, r)) (h2 : splitFirst eM r = none) :
    subAll sM eM repl s = s := by
  rw [subAll]
  cases hl : s.length with
  | zero => rfl
  | succ n =>
    rw [subAllFuel]
    split
    · rfl
    · split
      · rfl
      · next p₁ r₁ heq =>
        rw [h1] at heq
        obtain ⟨hp, hr⟩ := Prod.mk.inj (Option.some.inj heq)
        subst hp; subst hr
        split
        · rfl
        · next m q heq2 => rw [h2] at heq2; cases heq2

theorem subAll_step {sM eM repl s p r m q : List Char} (hS : sM ≠ [])
    (h1 : splitFirst sM s = some (p, r)) (h2 : splitFirst eM r = some (m, q)) :
    subAll sM eM repl s = p ++ repl ++ subAll sM eM repl q := by
  have hqs : q.length < s.length := by
    have e1 := splitFirst.eq_append h1
    have e2 := splitFirst.eq_append h2
    have hpos : 0 < sM.length := List.length_pos.mpr hS
    rw [e1, e2]
    simp only [List.length_append]
    omega
  rw [subAll]
  cases hl : s.length with
  | zero => omega
  | succ n =>
    rw [subAllFuel, if_neg hS]
    split
    · next heq => rw [h1] at heq; cases heq
    · next p₁ r₁ heq =>
      rw [h1] at heq
      obtain ⟨hp, hr⟩ := Prod.mk.inj (Option.some.inj heq)
      subst hp; subst hr
      split
      · next heq2 => rw [h2] at heq2; cases heq2
      · next m₁ q₁ heq2 =>
        rw [h2] at heq2
        obtain ⟨hm, hq⟩ := Prod.mk.inj (Option.some.inj heq2)
        subst hm; subst hq
        rw [subAllFuel_eq_subAll (by omega)]

/-- `Checker-2.py::extract_section_html`: search the compiled pattern
`escape(start_comment) + "(.*?)" + escape(end_comment)` (DOTALL) in the
host text and return the first captured group stripped of surrounding
whitespace, or `None` when there is no match.  A match of that pattern
exists iff the leftmost occurrence of the start comment is followed by
an occurrence of the end comment, and the captured group runs to the
first such occurrence (non-greedy `.*?`). -/
def extract_section_html (html_content section_name : List Char) :
    Option (List Char) :=
  match splitFirst (start_comment section_name) html_content with
  | none => none
  | some (_, r) =>
    match splitFirst (end_comment section_name) r with
    | none => none
    | some (m, _) => some (pyStrip m)

/-- `Checker-2.py::replace_section_html`: build the replacement
`f"{start_comment}\n{new_section_code}\n{end_comment}"`; if the pattern
`escape(start_comment) + ".*?" + escape(end_comment)` (DOTALL) has a
match in `full_html`, return `pattern.sub(replacement, full_html)`
(which substitutes **every** non-overlapping match), else log an error
and return `full_html` unchanged.  Via `subAll` this inserts the
replacement literally, which matches the program exactly when the
replacement string — the markers plus `new_section_code` — contains no
backslash; for backslash-bearing bodies `re.sub` escape-expands the
replacement or raises `re.error`, behaviour outside this model, so the
theorems about quantified bodies below restrict to backslash-free
`section_name`/`new_section_code` (the missing-marker branch never
parses the replacement template and needs no such proviso). -/
def replace_section_html (full_html section_name new_section_code : List Char) :
    List Char :=
  let start_c := start_comment section_name
  let end_c := end_comment section_name
  let replacement_code := start_c ++ nl ++ new_section_code ++ nl ++ end_c
  match splitFirst start_c full_html with
  | none => full_html
  | some (_, r) =>
    match splitFirst end_c r with
    | none => full_html
    | some _ => subAll start_c end_c replacement_code full_html

def isWordChar (c : Char) : Bool := c.isAlphanum || c == '_'

/-- The slug built by `update_page_file_with_code`:
`re.sub(r'[^\w]', '_', section_name.lower())` (word characters taken in
their ASCII reading). -/
def shortcode_slug (section_name : List Char) : List Char :=
  (section_name.map Char.toLower).map (fun c => if isWordChar c then c else '_')

def do_shortcode_line (section_name : List Char) : List Char :=
  String.toList "<?php echo do_shortcode('[" ++ shortcode_slug section_name
    ++ String.toList "]'); ?>"

/-- `CPT-Code-Modification-Shortcode.py::update_page_file_with_code`,
with the file I/O abstracted away: the function reads `content` from
the page file and, when `content.find(start_marker)` and
`content.find(end_marker)` both succeed, writes
`content[:start_idx] ++ replacement ++ content[end_idx + len(end_marker):]`
back and returns `True`; otherwise it returns `False` (modelled as
`none`).  The replacement is
`f"{start_marker}\n{body}\n{end_marker}"` where `body` is the
`do_shortcode` line when `is_shortcode` else `new_code`. -/
def update_page_file_with_code (content section_name new_code : List Char)
    (is_shortcode : Bool) : Option (List Char) :=
  let start_marker := start_comment section_name
  let end_marker := end_comment section_name
  match splitFirst start_marker content, splitFirst end_marker content with
  | some (p, _), some (_, r) =>
    let body := if is_shortcode then do_shortcode_line section_name else new_code
    some (p ++ start_marker ++ nl ++ body ++ nl ++ end_marker ++ r)
  | _, _ => none

theorem start_comment_ne_nil (n : List Char) : start_comment n ≠ [] := by
  intro h
  have hlen : (start_comment n).length = 0 := by rw [h]; rfl
  rw [start_comment] at hlen
  simp [List.length_append] at hlen

/-- On any input where the compiled pattern has a match,
`replace_section_html` is exactly the global substitution `subAll`;
where it has none, both leave the host unchanged. -/
theorem replace_eq_subAll (full_html section_name new_section_code : List Char) :
    replace_section_html full_html section_name new_section_code
      = subAll (start_comment section_name) (end_comment section_name)
          (start_comment section_name ++ nl ++ new_section_code ++ nl
            ++ end_comment section_name) full_html := by
  rw [replace_section_html]
  cases h1 : splitFirst (start_comment section_name) full_html with
  | none => rw [subAll_start_none h1]
  | some pr =>
    obtain ⟨p, r⟩ := pr
    dsimp only
    cases h2 : splitFirst (end_comment section_name) r with
    | none =>
      dsimp only
      rw [subAll_end_none h1 h2]
    | some mq =>
      dsimp only


theorem subAll_nil_start (eM repl s : List Char) :
    subAll [] eM repl s = s := by
  rw [subAll]
  cases hl : s.length with
  | zero => rfl
  | succ n => rw [subAllFuel]; simp

/-- Re-running a substitution over the output of a previous substitution
with the same marker pair gives the same result as running only the
second substitution, provided the end marker does not occur inside (or
overlapping) the first substitution's inserted body `w1` — the first
end-marker occurrence in `w1 ++ eM` must be the final `eM` itself. -/
theorem subAll_twice (sM eM w1 repl2 : List Char)
    (hE : splitFirst eM (w1 ++ eM) = some (w1, [])) :
    ∀ s, subAll sM eM repl2 (subAll sM eM (sM ++ (w1 ++ eM)) s)
      = subAll sM eM repl2 s := by
  by_cases hS : sM = []
  · intro s
    subst hS
    simp [subAll_nil_start]
  · suffices hMain : ∀ n s, s.length ≤ n →
        subAll sM eM repl2 (subAll sM eM (sM ++ (w1 ++ eM)) s)
          = subAll sM eM repl2 s by
      intro s; exact hMain s.length s le_rfl
    intro n
    induction n with
    | zero =>
      intro s hs
      have hsnil : s = [] := List.length_eq_zero.mp (Nat.le_zero.mp hs)
      subst hsnil
      rw [subAll_start_none (splitFirst_nil hS)]
    | succ n ih =>
      intro s hs
      cases h1 : splitFirst sM s with
      | none => rw [subAll_start_none h1]
      | some pr =>
        obtain ⟨p, r⟩ := pr
        cases h2 : splitFirst eM r with
        | none => rw [subAll_end_none h1 h2]
        | some mq =>
          obtain ⟨m, q⟩ := mq
          have hq : q.length ≤ n := by
            have e1 := splitFirst.eq_append h1
            have e2 := splitFirst.eq_append h2
            have hpos : 0 < sM.length := List.length_pos.mpr hS
            rw [e1, e2] at hs
            simp only [List.length_append] at hs
            omega
          rw [subAll_step hS h1 h2]
          have h1' := splitFirst.congr_suffix h1
            ((w1 ++ eM) ++ subAll sM eM (sM ++ (w1 ++ eM)) q)
          have h1'' : splitFirst sM
              ((p ++ (sM ++ (w1 ++ eM))) ++ subAll sM eM (sM ++ (w1 ++ eM)) q)
              = some (p, (w1 ++ eM) ++ subAll sM eM (sM ++ (w1 ++ eM)) q) := by
            rw [show (p ++ (sM ++ (w1 ++ eM))) ++ subAll sM eM (sM ++ (w1 ++ eM)) q
                = p ++ sM ++ ((w1 ++ eM) ++ subAll sM eM (sM ++ (w1 ++ eM)) q) by
              simp [List.append_assoc]]
            exact h1'
          have h2' := splitFirst.congr_suffix hE (subAll sM eM (sM ++ (w1 ++ eM)) q)
          rw [subAll_step hS h1'' h2']
          rw [ih q hq]
          conv_rhs => rw [subAll_step hS h1 h2]

/-! ## Claim C1 — patch idempotence -/

/-- C1 counterexample: patch idempotence fails for arbitrary bodies.
With host `"<!-- START: A -->x<!-- END: A -->"` and first body
`B1 = "<!-- END: A -->"`, re-patching with `B2 = "y"` leaves a residue
`"\n<!-- END: A -->"` of the first body behind, because the non-greedy
match of the second substitution stops at the end-marker occurrence
that `B1` injected into the region. -/
theorem replace_twice_leaves_residue :
    replace_section_html
        (replace_section_html (String.toList "<!-- START: A -->x<!-- END: A -->")
          (String.toList "A") (String.toList "<!-- END: A -->"))
        (String.toList "A") (String.toList "y")
      ≠ replace_section_html (String.toList "<!-- START: A -->x<!-- END: A -->")
          (String.toList "A") (String.toList "y") := by
  decide

/-- C1 (amended): `replace(replace(host, name, B1), name, B2) =
replace(host, name, B2)` for every host, provided (a) the bodies and
the section name contain no backslash — `re.sub` processes template
escapes in its replacement string (`\g<0>`, `\n`, and a bad escape such
as `\d` raises `re.error`), so the program text matches the model only
on backslash-free replacements — and (b) the end marker for `name`
does not occur inside the inserted region `"\n" ++ B1 ++ "\n"` ++ end
marker before its final position, in particular whenever `B1` does not
contain the end marker.  Without proviso (b) the claim is false
(`replace_twice_leaves_residue`); without (a) it is not even about the
program's behaviour. -/
theorem replace_section_html_idem (host section_name B1 B2 : List Char)
    (hname : '\\' ∉ section_name) (hbs1 : '\\' ∉ B1) (hbs2 : '\\' ∉ B2)
    (hB1 : splitFirst (end_comment section_name)
        (nl ++ B1 ++ nl ++ end_comment section_name)
      = some (nl ++ B1 ++ nl, [])) :
    replace_section_html (replace_section_html host section_name B1)
        section_name B2
      = replace_section_html host section_name B2 := by
  rw [replace_eq_subAll, replace_eq_subAll, replace_eq_subAll]
  have hval : start_comment section_name ++ nl ++ B1 ++ nl ++ end_comment section_name
      = start_comment section_name ++ ((nl ++ B1 ++ nl) ++ end_comment section_name) := by
    simp [List.append_assoc]
  rw [hval]
  exact subAll_twice (start_comment section_name) (end_comment section_name)
    (nl ++ B1 ++ nl)
    (start_comment section_name ++ nl ++ B2 ++ nl ++ end_comment section_name)
    hB1 host

/-- Witness for `replace_section_html_idem` at a concrete input. -/
theorem replace_section_html_idem_witness :
    replace_section_html
        (replace_section_html (String.toList "<p><!-- START: A -->x<!-- END: A --></p>")
          (String.toList "A") (String.toList "hello"))
        (String.toList "A") (String.toList "world")
      = replace_section_html (String.toList "<p><!-- START: A -->x<!-- END: A --></p>")
          (String.toList "A") (String.toList "world") :=
  replace_section_html_idem (String.toList "<p><!-- START: A -->x<!-- END: A --></p>")
    (String.toList "A") (String.toList "hello") (String.toList "world")
    (by decide) (by decide) (by decide) (by decide)

/-! ## Evaluation lemmas for the patcher -/

theorem extract_eval {html_content section_name p r m q : List Char}
    (h1 : splitFirst (start_comment section_name) html_content = some (p, r))
    (h2 : splitFirst (end_comment section_name) r = some (m, q)) :
    extract_section_html html_content section_name = some (pyStrip m) := by
  rw [extract_section_html, h1]
  dsimp only
  rw [h2]

theorem extract_eval_none {html_content section_name : List Char}
    (h : splitFirst (start_comment section_name) html_content = none
      ∨ splitFirst (end_comment section_name) html_content = none) :
    extract_section_html html_content section_name = none := by
  rw [extract_section_html]
  cases h1 : splitFirst (start_comment section_name) html_content with
  | none => rfl
  | some pr =>
    obtain ⟨p, r⟩ := pr
    dsimp only
    cases h2 : splitFirst (end_comment section_name) r with
    | none => rfl
    | some mq =>
      exfalso
      rcases h with hs | he
      · rw [h1] at hs; cases hs
      · have hr : r <:+: html_content := by
          have := splitFirst.eq_append h1
          exact ⟨p ++ start_comment section_name, [], by simp [this]⟩
        have hinf : end_comment section_name <:+: html_content :=
          (splitFirst.infix_of_eq_some h2).trans hr
        exact (splitFirst.eq_none_iff.mp he) hinf

theorem replace_eval_none {full_html section_name new_section_code : List Char}
    (h : splitFirst (start_comment section_name) full_html = none
      ∨ splitFirst (end_comment section_name) full_html = none) :
    replace_section_html full_html section_name new_section_code = full_html := by
  rw [replace_section_html]
  cases h1 : splitFirst (start_comment section_name) full_html with
  | none => rfl
  | some pr =>
    obtain ⟨p, r⟩ := pr
    dsimp only
    cases h2 : splitFirst (end_comment section_name) r with
    | none => rfl
    | some mq =>
      exfalso
      rcases h with hs | he
      · rw [h1] at hs; cases hs
      · have hr : r <:+: full_html := by
          have := splitFirst.eq_append h1
          exact ⟨p ++ start_comment section_name, [], by simp [this]⟩
        have hinf : end_comment section_name <:+: full_html :=
          (splitFirst.infix_of_eq_some h2).trans hr
        exact (splitFirst.eq_none_iff.mp he) hinf

theorem update_eval {content section_name new_code p x pe r : List Char}
    {is_shortcode : Bool}
    (h1 : splitFirst (start_comment section_name) content = some (p, x))
    (h2 : splitFirst (end_comment section_name) content = some (pe, r)) :
    update_page_file_with_code content section_name new_code is_shortcode
      = some (p ++ start_comment section_name ++ nl
          ++ (if is_shortcode then do_shortcode_line section_name else new_code)
          ++ nl ++ end_comment section_name ++ r) := by
  rw [update_page_file_with_code, h1, h2]

theorem update_eval_none {content section_name new_code : List Char}
    {is_shortcode : Bool}
    (h : splitFirst (start_comment section_name) content = none
      ∨ splitFirst (end_comment section_name) content = none) :
    update_page_file_with_code content section_name new_code is_shortcode
      = none := by
  rw [update_page_file_with_code]
  cases h1 : splitFirst (start_comment section_name) content with
  | none => rfl
  | some pr =>
    cases h2 : splitFirst (end_comment section_name) content with
    | none =>
      obtain ⟨p, x⟩ := pr
      rfl
    | some qr =>
      exfalso
      rcases h with hs | he
      · rw [h1] at hs; cases hs
      · rw [h2] at he; cases he

theorem isPySpace_nl : isPySpace '\n' = true := rfl

theorem dropWhile_append_nl_of_eq_nil {B : List Char}
    (h : B.dropWhile isPySpace = []) :
    (B ++ nl).dropWhile isPySpace = [] := by
  induction B with
  | nil => rfl
  | cons c t ih =>
    rw [List.dropWhile_cons] at h
    split at h
    · next hc =>
      rw [List.cons_append, List.dropWhile_cons, if_pos hc]
      exact ih h
    · cases h

theorem dropWhile_append_nl_of_ne_nil {B : List Char}
    (h : B.dropWhile isPySpace ≠ []) :
    (B ++ nl).dropWhile isPySpace = B.dropWhile isPySpace ++ nl := by
  induction B with
  | nil => exact absurd rfl h
  | cons c t ih =>
    rw [List.dropWhile_cons] at h
    rw [show c :: t ++ nl = c :: (t ++ nl) from rfl, List.dropWhile_cons,
      List.dropWhile_cons]
    split at h
    · next hc =>
      rw [if_pos hc, if_pos hc]
      exact ih h
    · next hc =>
      rw [if_neg hc, if_neg hc, List.cons_append]

/-- Stripping undoes the `"\n" ... "\n"` wrapping inserted by
`replace_section_html`. -/
theorem pyStrip_wrap (B : List Char) : pyStrip (nl ++ B ++ nl) = pyStrip B := by
  show pyStrip ('\n' :: (B ++ nl)) = pyStrip B
  rw [pyStrip, pyStrip, List.dropWhile_cons, if_pos isPySpace_nl]
  by_cases hB : B.dropWhile isPySpace = []
  · rw [dropWhile_append_nl_of_eq_nil hB, hB]
  · rw [dropWhile_append_nl_of_ne_nil hB, List.reverse_append]
    show (List.dropWhile isPySpace
      ('\n' :: (B.dropWhile isPySpace).reverse)).reverse = _
    rw [List.dropWhile_cons, if_pos isPySpace_nl]

/-! ## Claim C3 — behaviour on missing markers -/

/-- C3 counterexample: on a host without the marker pair,
`Checker-2.py::replace_section_html` does not fail — it returns the host
text unchanged as an ordinary result (the code logs an error and
executes `return full_html`), which is not a distinguished failure
outcome. -/
theorem replace_missing_markers_returns_host :
    extract_section_html (String.toList "hello world") (String.toList "A") = none
    ∧ replace_section_html (String.toList "hello world") (String.toList "A")
        (String.toList "B")
      = String.toList "hello world" :=
  ⟨by decide, by decide⟩

/-- C3 (amended): when a marker of the pair is absent,
`replace_section_html` returns the host unchanged (an ordinary result,
not an error), `update_page_file_with_code` returns a distinguished
failure (`False`, modelled `none`), and `extract_section_html` returns
the non-error "absent" value `None`. -/
theorem missing_markers_behaviour (content section_name new_code : List Char)
    (is_shortcode : Bool)
    (h : splitFirst (start_comment section_name) content = none
      ∨ splitFirst (end_comment section_name) content = none) :
    replace_section_html content section_name new_code = content
    ∧ update_page_file_with_code content section_name new_code is_shortcode
        = none
    ∧ extract_section_html content section_name = none :=
  ⟨replace_eval_none h, update_eval_none h, extract_eval_none h⟩

/-- Witness for `missing_markers_behaviour` at a concrete input. -/
theorem missing_markers_behaviour_witness :
    replace_section_html (String.toList "xyz") (String.toList "A")
        (String.toList "b")
      = String.toList "xyz"
    ∧ update_page_file_with_code (String.toList "xyz") (String.toList "A")
        (String.toList "b") false
      = none
    ∧ extract_section_html (String.toList "xyz") (String.toList "A") = none :=
  missing_markers_behaviour (String.toList "xyz") (String.toList "A")
    (String.toList "b") false (Or.inl (by decide))

/-! ## Claim C2 — patch isolation -/

/-- C2 counterexample.  First conjunct: a marker pair for `B` nested
inside the body of `A` is destroyed when `A` is patched (its start
marker no longer occurs in the result), so patching `A` does not leave
`B`'s substring unchanged.  Third conjunct: `replace_section_html`
substitutes **every** match (the two disjoint `A` regions are both
replaced), contradicting "not global". -/
theorem replace_section_html_not_isolated :
    replace_section_html
        (String.toList
          "<!-- START: A --><!-- START: B -->x<!-- END: B --><!-- END: A -->")
        (String.toList "A") (String.toList "y")
      = String.toList "<!-- START: A -->\ny\n<!-- END: A -->"
    ∧ splitFirst (start_comment (String.toList "B"))
        (replace_section_html
          (String.toList
            "<!-- START: A --><!-- START: B -->x<!-- END: B --><!-- END: A -->")
          (String.toList "A") (String.toList "y"))
      = none
    ∧ replace_section_html
        (String.toList
          "<!-- START: A -->u<!-- END: A -->m<!-- START: A -->v<!-- END: A -->")
        (String.toList "A") (String.toList "y")
      = String.toList
          "<!-- START: A -->\ny\n<!-- END: A -->m<!-- START: A -->\ny\n<!-- END: A -->" :=
  ⟨by decide, by decide, by decide⟩

/-- C2 (amended).  (1) If the new body and `M1`'s name contain no
backslash (the domain on which literal insertion is faithful to
`re.sub`'s template processing — a backslash-bearing replacement is
escape-expanded or raises `re.error`, so the byte-for-byte conclusions
below would be false of the program there), and `M2`'s marked region
lies after `M1`'s matched region with `M1`'s start marker not occurring
again in the remainder, then `replace_section_html` on `M1` reproduces
everything from `M1`'s end marker on — in particular `M2`'s markers and
body — byte for byte.  (2) `update_page_file_with_code` patches only
the region delimited by the *first* start and *first* end marker and
copies the whole suffix after that end marker verbatim (plain string
slicing, no regex replacement, so no backslash proviso is needed).
(3) Matching is non-greedy (first start, nearest end), but
`replace_section_html`'s substitution is *global*: under the same
backslash-free proviso, a second disjoint `M1` region is also
replaced. -/
theorem patch_isolation_characterisation :
    (∀ name1 name2 p b q c u B : List Char,
      '\\' ∉ name1 → '\\' ∉ B →
      splitFirst (start_comment name1)
          (p ++ start_comment name1 ++ b ++ end_comment name1
            ++ q ++ start_comment name2 ++ c ++ end_comment name2 ++ u)
        = some (p, b ++ end_comment name1 ++ q ++ start_comment name2 ++ c
            ++ end_comment name2 ++ u) →
      splitFirst (end_comment name1)
          (b ++ end_comment name1 ++ q ++ start_comment name2 ++ c
            ++ end_comment name2 ++ u)
        = some (b, q ++ start_comment name2 ++ c ++ end_comment name2 ++ u) →
      splitFirst (start_comment name1)
          (q ++ start_comment name2 ++ c ++ end_comment name2 ++ u) = none →
      replace_section_html
          (p ++ start_comment name1 ++ b ++ end_comment name1
            ++ q ++ start_comment name2 ++ c ++ end_comment name2 ++ u)
          name1 B
        = p ++ start_comment name1 ++ nl ++ B ++ nl ++ end_comment name1
            ++ q ++ start_comment name2 ++ c ++ end_comment name2 ++ u)
    ∧ (∀ section_name content new_code p x pe r : List Char,
        ∀ is_shortcode : Bool,
      splitFirst (start_comment section_name) content = some (p, x) →
      splitFirst (end_comment section_name) content = some (pe, r) →
      update_page_file_with_code content section_name new_code is_shortcode
        = some (p ++ start_comment section_name ++ nl
            ++ (if is_shortcode then do_shortcode_line section_name else new_code)
            ++ nl ++ end_comment section_name ++ r))
    ∧ (∀ name1 p b mid b2 u B : List Char,
      '\\' ∉ name1 → '\\' ∉ B →
      splitFirst (start_comment name1)
          (p ++ start_comment name1 ++ b ++ end_comment name1
            ++ mid ++ start_comment name1 ++ b2 ++ end_comment name1 ++ u)
        = some (p, b ++ end_comment name1 ++ mid ++ start_comment name1 ++ b2
            ++ end_comment name1 ++ u) →
      splitFirst (end_comment name1)
          (b ++ end_comment name1 ++ mid ++ start_comment name1 ++ b2
            ++ end_comment name1 ++ u)
        = some (b, mid ++ start_comment name1 ++ b2 ++ end_comment name1 ++ u) →
      splitFirst (start_comment name1)
          (mid ++ start_comment name1 ++ b2 ++ end_comment name1 ++ u)
        = some (mid, b2 ++ end_comment name1 ++ u) →
      splitFirst (end_comment name1) (b2 ++ end_comment name1 ++ u)
        = some (b2, u) →
      splitFirst (start_comment name1) u = none →
      replace_section_html
          (p ++ start_comment name1 ++ b ++ end_comment name1
            ++ mid ++ start_comment name1 ++ b2 ++ end_comment name1 ++ u)
          name1 B
        = p ++ start_comment name1 ++ nl ++ B ++ nl ++ end_comment name1
            ++ mid ++ start_comment name1 ++ nl ++ B ++ nl
            ++ end_comment name1 ++ u) := by
  refine ⟨?_, ?_, ?_⟩
  · intro name1 name2 p b q c u B hbsn hbsB h1 h2 h3
    have hS := start_comment_ne_nil name1
    rw [replace_eq_subAll, subAll_step hS h1 h2, subAll_start_none h3]
    simp [List.append_assoc]
  · intro section_name content new_code p x pe r is_shortcode h1 h2
    exact update_eval h1 h2
  · intro name1 p b mid b2 u B hbsn hbsB h1 h2 h3 h4 h5
    have hS := start_comment_ne_nil name1
    rw [replace_eq_subAll, subAll_step hS h1 h2, subAll_step hS h3 h4,
      subAll_start_none h5]
    simp [List.append_assoc]

/-- Witness for `patch_isolation_characterisation` at concrete inputs. -/
theorem patch_isolation_characterisation_witness :
    replace_section_html
        (String.toList "1" ++ start_comment (String.toList "A")
          ++ String.toList "x" ++ end_comment (String.toList "A")
          ++ String.toList "2" ++ start_comment (String.toList "B")
          ++ String.toList "z" ++ end_comment (String.toList "B")
          ++ String.toList "3")
        (String.toList "A") (String.toList "y")
      = String.toList "1" ++ start_comment (String.toList "A") ++ nl
          ++ String.toList "y" ++ nl ++ end_comment (String.toList "A")
          ++ String.toList "2" ++ start_comment (String.toList "B")
          ++ String.toList "z" ++ end_comment (String.toList "B")
          ++ String.toList "3"
    ∧ update_page_file_with_code
        (String.toList "1<!-- START: A -->x<!-- END: A -->2")
        (String.toList "A") (String.toList "y") false
      = some (String.toList "1" ++ start_comment (String.toList "A") ++ nl
          ++ (if false then do_shortcode_line (String.toList "A")
              else String.toList "y")
          ++ nl ++ end_comment (String.toList "A") ++ String.toList "2") :=
  ⟨patch_isolation_characterisation.1 (String.toList "A") (String.toList "B")
      (String.toList "1") (String.toList "x") (String.toList "2")
      (String.toList "z") (String.toList "3") (String.toList "y")
      (by decide) (by decide) (by decide) (by decide) (by decide),
    patch_isolation_characterisation.2.1 (String.toList "A")
      (String.toList "1<!-- START: A -->x<!-- END: A -->2")
      (String.toList "y") (String.toList "1")
      (String.toList "x<!-- END: A -->2")
      (String.toList "1<!-- START: A -->x") (String.toList "2") false
      (by decide) (by decide)⟩

/-! ## Claim C10 — extract / replace round trip -/

/-- C10: for a host with exactly one matched pair for `name` (no
further start marker after it) and a body that introduces no premature
end-marker occurrence, extracting right after replacing returns the new
body stripped of surrounding whitespace: `replace` writes
`start ++ "\n" ++ B ++ "\n" ++ end` and `extract` trims the two
inserted newlines (plus any whitespace at `B`'s edges) back off.  The
trailing conjuncts record that the round trip the other way is not the
identity: replacing an extracted body re-wraps it in newlines, so
`replace(H, M, extract(H, M))` need not equal `H` byte for byte. -/
theorem extract_replace_roundtrip :
    (∀ host section_name B p m q : List Char,
      splitFirst (start_comment section_name) host
        = some (p, m ++ end_comment section_name ++ q) →
      splitFirst (end_comment section_name) (m ++ end_comment section_name ++ q)
        = some (m, q) →
      splitFirst (start_comment section_name) q = none →
      splitFirst (end_comment section_name)
          (nl ++ B ++ nl ++ end_comment section_name)
        = some (nl ++ B ++ nl, []) →
      extract_section_html (replace_section_html host section_name B)
          section_name
        = some (pyStrip B))
    ∧ extract_section_html (String.toList "<!-- START: A -->x<!-- END: A -->")
        (String.toList "A")
      = some (String.toList "x")
    ∧ replace_section_html (String.toList "<!-- START: A -->x<!-- END: A -->")
        (String.toList "A") (String.toList "x")
      ≠ String.toList "<!-- START: A -->x<!-- END: A -->" := by
  refine ⟨?_, by decide, by decide⟩
  intro host section_name B p m q h1 h2 h3 h4
  have hS := start_comment_ne_nil section_name
  rw [replace_eq_subAll, subAll_step hS h1 h2, subAll_start_none h3]
  simp only [List.append_assoc]
  have hX := splitFirst.congr_suffix h1
    (nl ++ (B ++ (nl ++ (end_comment section_name ++ q))))
  simp only [List.append_assoc] at hX
  have hY := splitFirst.congr_suffix h4 q
  simp only [List.append_assoc] at hY
  rw [extract_eval hX hY]
  refine congrArg some ?_
  rw [← List.append_assoc]
  exact pyStrip_wrap B

/-- Witness for the universally quantified part of
`extract_replace_roundtrip` at a concrete input. -/
theorem extract_replace_roundtrip_witness :
    extract_section_html
        (replace_section_html
          (String.toList "<p><!-- START: A -->old<!-- END: A --></p>")
          (String.toList "A") (String.toList " y "))
        (String.toList "A")
      = some (pyStrip (String.toList " y ")) :=
  extract_replace_roundtrip.1
    (String.toList "<p><!-- START: A -->old<!-- END: A --></p>")
    (String.toList "A") (String.toList " y ") (String.toList "<p>")
    (String.toList "old") (String.toList "</p>")
    (by decide) (by decide) (by decide) (by decide)

/-! ## Retry wrappers

`CPT-Code-Modification-Shortcode.py::retry_on_rate_limit` wraps a
fallible call; `ACF_Generator.py::process_acf_file` contains the same
loop inline (lines 249-310).  The wrapped callable is abstracted as
`f : Nat → Except (List Char) α` giving, for each attempt index, either
a success value or the raised exception's message `str(e)`.  A run is
summarised by its outcome, the number of tries performed and the list
of `time.sleep` durations (seconds, modelled exactly in `ℚ`). -/

/-- Python's `in` on strings: substring containment. -/
def containsSub (pat s : List Char) : Bool := (splitFirst pat s).isSome

/-- Python's `str.lower()` (ASCII reading). -/
def lowerStr (s : List Char) : List Char := s.map Char.toLower

/-- `retry_on_rate_limit`'s classification:
`'429' in error_str or 'quota' in error_str.lower() or
'rate limit' in error_str.lower()`. -/
def isRateLimitError (error_str : List Char) : Bool :=
  containsSub (String.toList "429") error_str
    || containsSub (String.toList "quota") (lowerStr error_str)
    || containsSub (String.toList "rate limit") (lowerStr error_str)

/-- `process_acf_file`'s classification:
`"429" in error_str or "quota" in error_str.lower()` — note: no
`'rate limit'` signature here. -/
def isRateLimitErrorACF (error_str : List Char) : Bool :=
  containsSub (String.toList "429") error_str
    || containsSub (String.toList "quota") (lowerStr error_str)

def digitsToNat (ds : List Char) : Nat :=
  ds.foldl (fun a c => 10 * a + (c.toNat - '0'.toNat)) 0

/-- Attempt to match `retry in (\d+\.?\d*)` at the head of `s`:
the literal `"retry in "` followed by at least one digit, an optional
dot and further digits; the captured decimal is converted exactly
(Python converts it with `float`, exact for the integral server-supplied
values that occur in practice). -/
def matchRetryAt (s : List Char) : Option ℚ :=
  if (String.toList "retry in ").isPrefixOf s then
    let rest := s.drop 9
    let ds := rest.takeWhile Char.isDigit
    if ds.isEmpty then none
    else
      match rest.drop ds.length with
      | '.' :: r3 =>
        let fs := r3.takeWhile Char.isDigit
        some ((digitsToNat ds : ℚ) + (digitsToNat fs : ℚ) / (10 : ℚ) ^ fs.length)
      | _ => some (digitsToNat ds : ℚ)
  else none

/-- `re.search(r'retry in (\d+\.?\d*)', error_str)`: the leftmost
position at which the whole pattern matches. -/
def parseRetryIn : List Char → Option ℚ
  | [] => none
  | c :: t =>
    match matchRetryAt (c :: t) with
    | some v => some v
    | none => parseRetryIn t

/-- `MAX_RETRIES = 3` in `CPT-Code-Modification-Shortcode.py`. -/
def MAX_RETRIES : Nat := 3

/-- `INITIAL_RETRY_DELAY = 35  # seconds` — despite the code comment
"Exponential backoff", the fallback delay is
`INITIAL_RETRY_DELAY * (attempt + 1)`, i.e. linear. -/
def INITIAL_RETRY_DELAY : ℚ := 35

/-- Sleep computed by `retry_on_rate_limit` for a throttling error:
`float(retry_match.group(1)) + 2` when the message contains a
`retry in N` pattern, else `INITIAL_RETRY_DELAY * (attempt + 1)`. -/
def retryDelayFor (error_str : List Char) (attempt : Nat) : ℚ :=
  match parseRetryIn error_str with
  | some v => v + 2
  | none => INITIAL_RETRY_DELAY * ((attempt : ℚ) + 1)

inductive RetryOutcome (α : Type) where
  | success : α → RetryOutcome α
  | raised : List Char → RetryOutcome α
  | fellThrough : RetryOutcome α
deriving DecidableEq

/-- Summary of one execution of a retry loop: final outcome, number of
invocations of the wrapped callable, and the sleeps performed. -/
structure RetryTrace (α : Type) where
  outcome : RetryOutcome α
  tries : Nat
  sleeps : List ℚ
deriving DecidableEq

/-- The body of `retry_on_rate_limit`'s `for attempt in range(MAX_RETRIES)`
loop, from iteration `attempt` on.  `fuel` bounds the remaining
iterations purely for structural termination; callers pass
`fuel = maxRetries` so that `attempt + fuel = maxRetries` and the fuel
can never run out before the loop's own exit conditions fire (each
recursive call requires `attempt < maxRetries - 1`).  The `fuel = 0` /
`attempt ≥ maxRetries` result is the loop's fall-through `return None`
(`RetryOutcome.fellThrough`), unreachable for `maxRetries ≥ 1`. -/
def retryGo {α : Type} (f : Nat → Except (List Char) α) (maxRetries : Nat) :
    Nat → Nat → RetryTrace α
  | _, 0 => ⟨RetryOutcome.fellThrough, 0, []⟩
  | attempt, fuel + 1 =>
    if attempt < maxRetries then
      match f attempt with
      | Except.ok a => ⟨RetryOutcome.success a, 1, []⟩
      | Except.error e =>
        if isRateLimitError e then
          if attempt < maxRetries - 1 then
            let rest := retryGo f maxRetries (attempt + 1) fuel
            ⟨rest.outcome, rest.tries + 1, retryDelayFor e attempt :: rest.sleeps⟩
          else ⟨RetryOutcome.raised e, 1, []⟩
        else ⟨RetryOutcome.raised e, 1, []⟩
    else ⟨RetryOutcome.fellThrough, 0, []⟩

/-- `CPT-Code-Modification-Shortcode.py::retry_on_rate_limit` (the
wrapper's loop, `MAX_RETRIES` generalised to a parameter). -/
def retry_on_rate_limit {α : Type} (f : Nat → Except (List Char) α)
    (maxRetries : Nat) : RetryTrace α :=
  retryGo f maxRetries 0 maxRetries

structure AcfTrace (α : Type) where
  result : Option α
  tries : Nat
  sleeps : List ℚ
deriving DecidableEq

/-- The retry loop of `ACF_Generator.py::process_acf_file`
(`for attempt in range(max_retries)` with `retry_delay` starting at 15
and doubling after each sleep).  On a non-throttling error, and on
exhaustion of the retry budget, the function logs and `return None` —
the caller receives no error value.  Fuel as in `retryGo`. -/
def acfGo {α : Type} (f : Nat → Except (List Char) α) (maxRetries : Nat) :
    Nat → ℚ → Nat → AcfTrace α
  | _, _, 0 => ⟨none, 0, []⟩
  | attempt, retryDelay, fuel + 1 =>
    if attempt < maxRetries then
      match f attempt with
      | Except.ok a => ⟨some a, 1, []⟩
      | Except.error e =>
        if isRateLimitErrorACF e then
          if attempt < maxRetries - 1 then
            let rest := acfGo f maxRetries (attempt + 1) (retryDelay * 2) fuel
            ⟨rest.result, rest.tries + 1, retryDelay :: rest.sleeps⟩
          else ⟨none, 1, []⟩
        else ⟨none, 1, []⟩
    else ⟨none, 0, []⟩

/-- `process_acf_file`'s retry skeleton, with the AI call, response
cleaning and file reading abstracted into `f`
(`max_retries = 5`, `retry_delay = 15` at the call site). -/
def process_acf_file_retry {α : Type} (f : Nat → Except (List Char) α)
    (maxRetries : Nat) (initialDelay : ℚ) : AcfTrace α :=
  acfGo f maxRetries 0 initialDelay maxRetries

theorem containsSub_iff {pat s : List Char} :
    containsSub pat s = true ↔ pat <:+: s := by
  rw [containsSub]
  constructor
  · intro h
    cases hs : splitFirst pat s with
    | none => rw [hs] at h; cases h
    | some pr =>
      obtain ⟨p, r⟩ := pr
      exact splitFirst.infix_of_eq_some hs
  · intro h
    exact splitFirst.isSome_of_infix h

/-- On an always-throttling error stream, the `retry_on_rate_limit` loop
runs from iteration `attempt` to the last iteration, re-raises the last
error, and sleeps the computed delay before every non-final try. -/
theorem retryGo_throttle_trace {α : Type} (f : Nat → Except (List Char) α)
    (e : Nat → List Char) (maxRetries : Nat)
    (hf : ∀ n, f n = Except.error (e n))
    (hth : ∀ n, isRateLimitError (e n) = true) :
    ∀ fuel attempt, attempt + fuel = maxRetries → attempt < maxRetries →
      retryGo f maxRetries attempt fuel
        = ⟨RetryOutcome.raised (e (maxRetries - 1)), maxRetries - attempt,
            (List.range' attempt (maxRetries - 1 - attempt)).map
              (fun i => retryDelayFor (e i) i)⟩ := by
  intro fuel
  induction fuel with
  | zero => intro attempt h1 h2; omega
  | succ fuel ih =>
    intro attempt h1 h2
    rw [retryGo, if_pos h2, hf attempt]
    dsimp only
    rw [if_pos (hth attempt)]
    by_cases hlt : attempt < maxRetries - 1
    · rw [if_pos hlt, ih (attempt + 1) (by omega) (by omega)]
      have htry : maxRetries - (attempt + 1) + 1 = maxRetries - attempt := by
        omega
      have hrng : maxRetries - 1 - attempt = (maxRetries - 1 - (attempt + 1)) + 1 := by
        omega
      rw [RetryTrace.mk.injEq]
      refine ⟨rfl, htry, ?_⟩
      rw [hrng, List.range'_succ, List.map_cons]
    · rw [if_neg hlt]
      have ha : attempt = maxRetries - 1 := by omega
      have h0 : maxRetries - 1 - attempt = 0 := by omega
      have h1' : maxRetries - attempt = 1 := by omega
      rw [RetryTrace.mk.injEq, h0, h1', ha]
      exact ⟨rfl, rfl, rfl⟩

/-- On an always-throttling error stream (ACF classification), the
`process_acf_file` loop runs to exhaustion, returns `None`, and sleeps
the doubling delays. -/
theorem acfGo_throttle_trace {α : Type} (f : Nat → Except (List Char) α)
    (e : Nat → List Char) (maxRetries : Nat)
    (hf : ∀ n, f n = Except.error (e n))
    (hth : ∀ n, isRateLimitErrorACF (e n) = true) :
    ∀ fuel attempt d, attempt + fuel = maxRetries → attempt < maxRetries →
      acfGo f maxRetries attempt d fuel
        = ⟨none, maxRetries - attempt,
            (List.range (maxRetries - 1 - attempt)).map (fun i => d * 2 ^ i)⟩ := by
  intro fuel
  induction fuel with
  | zero => intro attempt d h1 h2; omega
  | succ fuel ih =>
    intro attempt d h1 h2
    rw [acfGo, if_pos h2, hf attempt]
    dsimp only
    rw [if_pos (hth attempt)]
    by_cases hlt : attempt < maxRetries - 1
    · rw [if_pos hlt, ih (attempt + 1) (d * 2) (by omega) (by omega)]
      have htry : maxRetries - (attempt + 1) + 1 = maxRetries - attempt := by
        omega
      have hrng : maxRetries - 1 - attempt = (maxRetries - 1 - (attempt + 1)) + 1 := by
        omega
      rw [AcfTrace.mk.injEq]
      refine ⟨rfl, htry, ?_⟩
      rw [hrng, List.range_succ_eq_map, List.map_cons, List.map_map]
      rw [pow_zero, mul_one]
      refine congrArg (List.cons d) (List.map_congr_left ?_)
      intro i _
      show d * 2 * 2 ^ i = d * 2 ^ (i + 1)
      rw [pow_succ]
      ring
    · rw [if_neg hlt]
      have h0 : maxRetries - 1 - attempt = 0 := by omega
      have h1' : maxRetries - attempt = 1 := by omega
      rw [AcfTrace.mk.injEq, h0, h1']
      exact ⟨rfl, rfl, rfl⟩

/-- A non-throttling first error is re-raised immediately: one try, no
sleep. -/
theorem retry_nonthrottle_eval {α : Type} (f : Nat → Except (List Char) α)
    (e0 : List Char) (maxRetries : Nat) (h : 0 < maxRetries)
    (hf : f 0 = Except.error e0) (hth : isRateLimitError e0 = false) :
    retry_on_rate_limit f maxRetries = ⟨RetryOutcome.raised e0, 1, []⟩ := by
  rw [retry_on_rate_limit]
  cases maxRetries with
  | zero => omega
  | succ m =>
    rw [retryGo, if_pos (by omega : 0 < m + 1), hf]
    dsimp only
    rw [hth]
    simp

/-- A non-throttling (per ACF's classification) first error makes
`process_acf_file` return `None` immediately: one try, no sleep. -/
theorem acf_nonthrottle_eval {α : Type} (f : Nat → Except (List Char) α)
    (e0 : List Char) (maxRetries : Nat) (d : ℚ) (h : 0 < maxRetries)
    (hf : f 0 = Except.error e0) (hth : isRateLimitErrorACF e0 = false) :
    process_acf_file_retry f maxRetries d = ⟨none, 1, []⟩ := by
  rw [process_acf_file_retry]
  cases maxRetries with
  | zero => omega
  | succ m =>
    rw [acfGo, if_pos (by omega : 0 < m + 1), hf]
    dsimp only
    rw [hth]
    simp

theorem retryGo_tries_pos {α : Type} (f : Nat → Except (List Char) α)
    (maxRetries : Nat) :
    ∀ fuel attempt, attempt < maxRetries → 0 < fuel →
      1 ≤ (retryGo f maxRetries attempt fuel).tries := by
  intro fuel attempt ha hfuel
  cases fuel with
  | zero => omega
  | succ fuel =>
    rw [retryGo, if_pos ha]
    cases f attempt with
    | ok a => exact le_refl 1
    | error e =>
      dsimp only
      by_cases hth : isRateLimitError e = true
      · rw [if_pos hth]
        by_cases hlt : attempt < maxRetries - 1
        · rw [if_pos hlt]
          dsimp only
          omega
        · rw [if_neg hlt]
      · rw [if_neg hth]

/-! ## Claim C4 — retry bound -/

/-- C4 counterexample: with an always-throttling callable,
`process_acf_file` does perform its full `max_retries = 5` tries, but
then returns `None`: the caller receives no raised error at all and in
particular not the original last error. -/
theorem process_acf_exhaustion_carries_no_error :
    (process_acf_file_retry
        (fun _ => (Except.error (String.toList "429") : Except (List Char) Unit))
        5 15).tries = 5
    ∧ (process_acf_file_retry
        (fun _ => (Except.error (String.toList "429") : Except (List Char) Unit))
        5 15).result = none :=
  ⟨by decide, by decide⟩

/-- C4 (amended): with an always-throttling callable,
`retry_on_rate_limit` performs exactly `MAX_RETRIES` tries and then
re-raises the original last error, while `process_acf_file` performs
exactly `max_retries` tries and then returns `None` (carrying no
error); with a non-throttling first error each performs exactly one try
(the former re-raising the error, the latter returning `None`). -/
theorem retry_bound_characterisation :
    (∀ (α : Type) (f : Nat → Except (List Char) α) (e : Nat → List Char)
        (maxRetries : Nat), 0 < maxRetries →
      (∀ n, f n = Except.error (e n)) →
      (∀ n, isRateLimitError (e n) = true) →
      (retry_on_rate_limit f maxRetries).tries = maxRetries
        ∧ (retry_on_rate_limit f maxRetries).outcome
            = RetryOutcome.raised (e (maxRetries - 1)))
    ∧ (∀ (α : Type) (f : Nat → Except (List Char) α) (e : Nat → List Char)
        (maxRetries : Nat) (d : ℚ), 0 < maxRetries →
      (∀ n, f n = Except.error (e n)) →
      (∀ n, isRateLimitErrorACF (e n) = true) →
      (process_acf_file_retry f maxRetries d).tries = maxRetries
        ∧ (process_acf_file_retry f maxRetries d).result = none)
    ∧ (∀ (α : Type) (f : Nat → Except (List Char) α) (e0 : List Char)
        (maxRetries : Nat), 0 < maxRetries →
      f 0 = Except.error e0 → isRateLimitError e0 = false →
      retry_on_rate_limit f maxRetries
        = ⟨RetryOutcome.raised e0, 1, []⟩)
    ∧ (∀ (α : Type) (f : Nat → Except (List Char) α) (e0 : List Char)
        (maxRetries : Nat) (d : ℚ), 0 < maxRetries →
      f 0 = Except.error e0 → isRateLimitErrorACF e0 = false →
      process_acf_file_retry f maxRetries d = ⟨none, 1, []⟩) := by
  refine ⟨?_, ?_, ?_, ?_⟩
  · intro α f e maxRetries h hf hth
    rw [retry_on_rate_limit,
      retryGo_throttle_trace f e maxRetries hf hth maxRetries 0 (by omega) h]
    refine ⟨?_, rfl⟩
    dsimp only
    omega
  · intro α f e maxRetries d h hf hth
    rw [process_acf_file_retry,
      acfGo_throttle_trace f e maxRetries hf hth maxRetries 0 d (by omega) h]
    refine ⟨?_, rfl⟩
    dsimp only
    omega
  · intro α f e0 maxRetries h hf hth
    exact retry_nonthrottle_eval f e0 maxRetries h hf hth
  · intro α f e0 maxRetries d h hf hth
    exact acf_nonthrottle_eval f e0 maxRetries d h hf hth

/-- Witness for `retry_bound_characterisation` at concrete inputs. -/
theorem retry_bound_characterisation_witness :
    ((retry_on_rate_limit
        (fun _ => (Except.error (String.toList "429 quota")
          : Except (List Char) Unit)) 3).tries = 3
      ∧ (retry_on_rate_limit
        (fun _ => (Except.error (String.toList "429 quota")
          : Except (List Char) Unit)) 3).outcome
        = RetryOutcome.raised (String.toList "429 quota"))
    ∧ retry_on_rate_limit
        (fun _ => (Except.error (String.toList "boom")
          : Except (List Char) Unit)) 3
      = ⟨RetryOutcome.raised (String.toList "boom"), 1, []⟩ :=
  ⟨retry_bound_characterisation.1 Unit
      (fun _ => Except.error (String.toList "429 quota"))
      (fun _ => String.toList "429 quota") 3 (by omega)
      (fun _ => rfl)
      (fun _ =>
        (by decide : isRateLimitError (String.toList "429 quota") = true)),
    retry_bound_characterisation.2.2.1 Unit
      (fun _ => Except.error (String.toList "boom"))
      (String.toList "boom") 3 (by omega) rfl (by decide)⟩

/-! ## Claim C5 — throttling classification -/

/-- C5 counterexample: the error message `"rate limit exceeded"`
matches the claimed signature set (it contains `'rate limit'`), but
`process_acf_file` — one of the two retry wrappers the claim covers —
tests only for `'429'` and `'quota'`, classifies it as non-throttling
and surfaces it after exactly one try, with no retry and no sleep. -/
theorem acf_misses_rate_limit_signature :
    isRateLimitError (String.toList "rate limit exceeded") = true
    ∧ isRateLimitErrorACF (String.toList "rate limit exceeded") = false
    ∧ process_acf_file_retry
        (fun _ => (Except.error (String.toList "rate limit exceeded")
          : Except (List Char) Unit)) 5 15
      = ⟨none, 1, []⟩ :=
  ⟨by decide, by decide, by decide⟩

/-- C5 (amended): `retry_on_rate_limit` classifies an error as
throttling iff its message contains `'429'`, or contains `'quota'` or
`'rate limit'` case-insensitively, and retries exactly those (at least
two tries when the budget allows); `process_acf_file` tests only
`'429'`/`'quota'`, so a message matching only `'rate limit'` is
surfaced there immediately.  Any error classified non-throttling is
surfaced after exactly one try with no sleep, by both wrappers. -/
theorem throttling_classification :
    (∀ e : List Char, isRateLimitError e = true
      ↔ (String.toList "429" <:+: e
          ∨ String.toList "quota" <:+: lowerStr e
          ∨ String.toList "rate limit" <:+: lowerStr e))
    ∧ (∀ e : List Char, isRateLimitErrorACF e = true
      ↔ (String.toList "429" <:+: e ∨ String.toList "quota" <:+: lowerStr e))
    ∧ (∀ (α : Type) (f : Nat → Except (List Char) α) (e0 : List Char)
        (maxRetries : Nat), 0 < maxRetries →
      f 0 = Except.error e0 → isRateLimitError e0 = false →
      retry_on_rate_limit f maxRetries
        = ⟨RetryOutcome.raised e0, 1, []⟩)
    ∧ (∀ (α : Type) (f : Nat → Except (List Char) α) (e0 : List Char)
        (maxRetries : Nat) (d : ℚ), 0 < maxRetries →
      f 0 = Except.error e0 → isRateLimitErrorACF e0 = false →
      process_acf_file_retry f maxRetries d = ⟨none, 1, []⟩)
    ∧ (∀ (α : Type) (f : Nat → Except (List Char) α) (e0 : List Char)
        (maxRetries : Nat), 2 ≤ maxRetries →
      f 0 = Except.error e0 → isRateLimitError e0 = true →
      2 ≤ (retry_on_rate_limit f maxRetries).tries) := by
  refine ⟨?_, ?_, ?_, ?_, ?_⟩
  · intro e
    rw [isRateLimitError]
    simp only [Bool.or_eq_true, containsSub_iff]
    rw [or_assoc]
  · intro e
    rw [isRateLimitErrorACF]
    simp only [Bool.or_eq_true, containsSub_iff]
  · intro α f e0 maxRetries h hf hth
    exact retry_nonthrottle_eval f e0 maxRetries h hf hth
  · intro α f e0 maxRetries d h hf hth
    exact acf_nonthrottle_eval f e0 maxRetries d h hf hth
  · intro α f e0 maxRetries h hf hth
    rw [retry_on_rate_limit]
    cases maxRetries with
    | zero => omega
    | succ m =>
      rw [retryGo, if_pos (by omega : 0 < m + 1), hf]
      dsimp only
      rw [if_pos hth, if_pos (by omega : 0 < m + 1 - 1)]
      dsimp only
      have := retryGo_tries_pos f (m + 1) m (0 + 1) (by omega) (by omega)
      omega

/-- Witness for `throttling_classification` at concrete inputs. -/
theorem throttling_classification_witness :
    retry_on_rate_limit
        (fun _ => (Except.error (String.toList "boom")
          : Except (List Char) Unit)) 3
      = ⟨RetryOutcome.raised (String.toList "boom"), 1, []⟩
    ∧ 2 ≤ (retry_on_rate_limit
        (fun _ => (Except.error (String.toList "429")
          : Except (List Char) Unit)) 3).tries :=
  ⟨throttling_classification.2.2.1 Unit
      (fun _ => Except.error (String.toList "boom"))
      (String.toList "boom") 3 (by omega) rfl (by decide),
    throttling_classification.2.2.2.2 Unit
      (fun _ => Except.error (String.toList "429"))
      (String.toList "429") 3 (by omega) rfl (by decide)⟩

/-! ## Claim C6 — retry delay computation -/

theorem chain'_le_map_range (g : Nat → ℚ) (hg : ∀ i, g i ≤ g (i + 1)) (n : Nat) :
    List.Chain' (· ≤ ·) ((List.range n).map g) := by
  have hmono : Monotone g := monotone_nat_of_le_succ hg
  refine List.Pairwise.chain' ?_
  rw [List.pairwise_map]
  exact (List.pairwise_lt_range n).imp (fun hab => hmono (Nat.le_of_lt hab))

theorem chain'_le_map_range' (g : Nat → ℚ) (hg : ∀ i, g i ≤ g (i + 1))
    (a n : Nat) : List.Chain' (· ≤ ·) ((List.range' a n).map g) := by
  have hmono : Monotone g := monotone_nat_of_le_succ hg
  refine List.Pairwise.chain' ?_
  rw [List.pairwise_map]
  exact (List.pairwise_lt_range' a n 1).imp (fun hab => hmono (Nat.le_of_lt hab))

/-- C6 counterexample: the computed delays are not monotonically
non-decreasing across the attempts of one call.  With a first error
carrying a server-suggested `retry in 100` and a second throttling
error without one, `retry_on_rate_limit` sleeps `100 + 2 = 102`
seconds, then `35 * 2 = 70` seconds: the delay sequence decreases. -/
theorem retry_delays_not_monotone :
    (retry_on_rate_limit
        (fun n => (Except.error (if n = 0 then String.toList "quota retry in 100"
            else String.toList "429") : Except (List Char) Unit)) 3).sleeps
      = [102, 70]
    ∧ ¬ List.Chain' (· ≤ ·)
        (retry_on_rate_limit
          (fun n => (Except.error (if n = 0 then String.toList "quota retry in 100"
              else String.toList "429") : Except (List Char) Unit)) 3).sleeps := by
  have hth : ∀ n, isRateLimitError
      (if n = 0 then String.toList "quota retry in 100"
        else String.toList "429") = true := by
    intro n
    cases n with
    | zero => decide
    | succ m =>
      rw [if_neg (Nat.succ_ne_zero m)]
      decide
  have hsleeps : (retry_on_rate_limit
      (fun n => (Except.error (if n = 0 then String.toList "quota retry in 100"
          else String.toList "429") : Except (List Char) Unit)) 3).sleeps
      = [102, 70] := by
    rw [retry_on_rate_limit,
      retryGo_throttle_trace _
        (fun n => if n = 0 then String.toList "quota retry in 100"
          else String.toList "429") 3 (fun _ => rfl) hth 3 0 rfl (by omega)]
    dsimp only
    show [retryDelayFor (String.toList "quota retry in 100") 0,
        retryDelayFor (String.toList "429") 1] = [102, 70]
    rw [retryDelayFor, retryDelayFor]
    rw [show parseRetryIn (String.toList "quota retry in 100")
        = some 100 from rfl]
    rw [show parseRetryIn (String.toList "429") = none from rfl]
    rw [INITIAL_RETRY_DELAY]
    norm_num
  refine ⟨hsleeps, ?_⟩
  rw [hsleeps]
  intro hc
  rw [List.chain'_cons] at hc
  have := hc.1
  norm_num at this

/-- C6 (amended): each sleep of `retry_on_rate_limit` is the
server-suggested wait plus a 2-second buffer when the message embeds a
`retry in N` pattern and `INITIAL_RETRY_DELAY * (attempt + 1)` (linear)
otherwise; `process_acf_file` always sleeps `retry_delay * 2 ^ attempt`
(exponential), ignoring any server-suggested wait.  When no message
carries a server-suggested wait, the delays in one call are
monotonically non-decreasing — as they always are for
`process_acf_file`'s doubling delays — but a server-suggested delay may
exceed a later computed one (`retry_delays_not_monotone`), so the
unconditional monotonicity the claim states does not hold. -/
theorem retry_delay_characterisation :
    (∀ (e : List Char) (attempt : Nat) (v : ℚ), parseRetryIn e = some v →
      retryDelayFor e attempt = v + 2)
    ∧ (∀ (e : List Char) (attempt : Nat), parseRetryIn e = none →
      retryDelayFor e attempt = INITIAL_RETRY_DELAY * ((attempt : ℚ) + 1))
    ∧ (∀ (α : Type) (f : Nat → Except (List Char) α) (e : Nat → List Char)
        (maxRetries : Nat), 0 < maxRetries →
      (∀ n, f n = Except.error (e n)) →
      (∀ n, isRateLimitError (e n) = true) →
      (retry_on_rate_limit f maxRetries).sleeps
        = (List.range' 0 (maxRetries - 1)).map (fun i => retryDelayFor (e i) i))
    ∧ (∀ (α : Type) (f : Nat → Except (List Char) α) (e : Nat → List Char)
        (maxRetries : Nat) (d : ℚ), 0 < maxRetries →
      (∀ n, f n = Except.error (e n)) →
      (∀ n, isRateLimitErrorACF (e n) = true) →
      (process_acf_file_retry f maxRetries d).sleeps
        = (List.range (maxRetries - 1)).map (fun i => d * 2 ^ i))
    ∧ (∀ (α : Type) (f : Nat → Except (List Char) α) (e : Nat → List Char)
        (maxRetries : Nat), 0 < maxRetries →
      (∀ n, f n = Except.error (e n)) →
      (∀ n, isRateLimitError (e n) = true) →
      (∀ n, parseRetryIn (e n) = none) →
      List.Chain' (· ≤ ·) (retry_on_rate_limit f maxRetries).sleeps)
    ∧ (∀ (α : Type) (f : Nat → Except (List Char) α) (e : Nat → List Char)
        (maxRetries : Nat) (d : ℚ), 0 ≤ d → 0 < maxRetries →
      (∀ n, f n = Except.error (e n)) →
      (∀ n, isRateLimitErrorACF (e n) = true) →
      List.Chain' (· ≤ ·) (process_acf_file_retry f maxRetries d).sleeps) := by
  refine ⟨?_, ?_, ?_, ?_, ?_, ?_⟩
  · intro e attempt v h
    rw [retryDelayFor, h]
  · intro e attempt h
    rw [retryDelayFor, h]
  · intro α f e maxRetries h hf hth
    rw [retry_on_rate_limit,
      retryGo_throttle_trace f e maxRetries hf hth maxRetries 0 (by omega) h]
    rfl
  · intro α f e maxRetries d h hf hth
    rw [process_acf_file_retry,
      acfGo_throttle_trace f e maxRetries hf hth maxRetries 0 d (by omega) h]
    rfl
  · intro α f e maxRetries h hf hth hparse
    rw [retry_on_rate_limit,
      retryGo_throttle_trace f e maxRetries hf hth maxRetries 0 (by omega) h]
    dsimp only
    have heq : ∀ i ∈ List.range' 0 (maxRetries - 1 - 0),
        retryDelayFor (e i) i = INITIAL_RETRY_DELAY * ((i : ℚ) + 1) := by
      intro i _
      rw [retryDelayFor, hparse i]
    rw [List.map_congr_left heq]
    refine chain'_le_map_range' _ ?_ 0 (maxRetries - 1 - 0)
    intro i
    rw [INITIAL_RETRY_DELAY]
    push_cast
    linarith
  · intro α f e maxRetries d hd h hf hth
    rw [process_acf_file_retry,
      acfGo_throttle_trace f e maxRetries hf hth maxRetries 0 d (by omega) h]
    dsimp only
    refine chain'_le_map_range _ ?_ (maxRetries - 1 - 0)
    intro i
    have h2 : (0 : ℚ) ≤ d * 2 ^ i := by positivity
    rw [pow_succ]
    nlinarith

/-- Witness for `retry_delay_characterisation` at concrete inputs. -/
theorem retry_delay_characterisation_witness :
    retryDelayFor (String.toList "quota retry in 100") 0 = 100 + 2
    ∧ retryDelayFor (String.toList "429") 1
        = INITIAL_RETRY_DELAY * ((1 : ℚ) + 1)
    ∧ (retry_on_rate_limit
        (fun _ => (Except.error (String.toList "429")
          : Except (List Char) Unit)) 3).sleeps
      = (List.range' 0 (3 - 1)).map
          (fun i => retryDelayFor ((fun _ => String.toList "429") i) i)
    ∧ (process_acf_file_retry
        (fun _ => (Except.error (String.toList "429")
          : Except (List Char) Unit)) 5 15).sleeps
      = (List.range (5 - 1)).map (fun i => (15 : ℚ) * 2 ^ i)
    ∧ List.Chain' (· ≤ ·)
        (retry_on_rate_limit
          (fun _ => (Except.error (String.toList "429")
            : Except (List Char) Unit)) 3).sleeps :=
  ⟨retry_delay_characterisation.1 (String.toList "quota retry in 100") 0 100 rfl,
    retry_delay_characterisation.2.1 (String.toList "429") 1 rfl,
    retry_delay_characterisation.2.2.1 Unit
      (fun _ => Except.error (String.toList "429"))
      (fun _ => String.toList "429") 3 (by omega) (fun _ => rfl)
      (fun _ => (by decide : isRateLimitError (String.toList "429") = true)),
    retry_delay_characterisation.2.2.2.1 Unit
      (fun _ => Except.error (String.toList "429"))
      (fun _ => String.toList "429") 5 15 (by omega) (fun _ => rfl)
      (fun _ => (by decide : isRateLimitErrorACF (String.toList "429") = true)),
    retry_delay_characterisation.2.2.2.2.1 Unit
      (fun _ => Except.error (String.toList "429"))
      (fun _ => String.toList "429") 3 (by omega) (fun _ => rfl)
      (fun _ => (by decide : isRateLimitError (String.toList "429") = true))
      (fun _ => (rfl : parseRetryIn (String.toList "429") = none))⟩

/-! ## Claim C7 — thread-safe rate limiter

`Checker-2.py::ThreadSafeRateLimiter.wait_if_needed` (and the identical
`figam.py` version) executes, under `self.lock`:
`current = time.time(); since = current - self.last_call_time;`
`if since < delay: time.sleep(delay - since);`
`self.last_call_time = time.time()`.
The lock serialises these critical sections, so any multi-threaded run
corresponds to a sequence of events; each event records the first
`time.time()` read (`tNow`) and the second (`tObs`), the value stored
into `last_call_time`.  `time.sleep(d)` suspends the thread for at
least `d` seconds and clocks only move forward, so `tObs` is bounded
below by `earliestResume`. -/

/-- `figam.py` computes `min_interval = 1.0 / max_requests_per_second`;
`Checker-2.py` passes the interval (`delay_seconds`) directly. -/
def min_interval (max_requests_per_second : ℚ) : ℚ :=
  1 / max_requests_per_second

/-- Earliest possible time of the second `time.time()` read in one
`wait_if_needed` critical section entered at time `tNow` with stored
`last_call_time = last`. -/
def earliestResume (delay last tNow : ℚ) : ℚ :=
  if tNow - last < delay then tNow + (delay - (tNow - last)) else tNow

/-- A physically possible serialised run of `wait_if_needed` critical
sections: each observed second read is no earlier than the sleep
permits, and the stored timestamp is threaded through. -/
def ValidRun (delay : ℚ) : ℚ → List (ℚ × ℚ) → Prop
  | _, [] => True
  | last, (tNow, tObs) :: rest =>
      earliestResume delay last tNow ≤ tObs ∧ ValidRun delay tObs rest

/-- C7: in every valid serialised run, each pair of consecutive values
stored into `last_call_time` (the call-start records, starting from the
stored value before the run) is separated by at least the configured
interval — the limiter never records two call-starts less than `delay`
apart, whichever thread performed them. -/
theorem wait_if_needed_spacing (delay last0 : ℚ) (run : List (ℚ × ℚ))
    (h : ValidRun delay last0 run) :
    List.Chain (fun a b => delay ≤ b - a) last0 (run.map Prod.snd) := by
  induction run generalizing last0 with
  | nil => exact List.Chain.nil
  | cons ev rest ih =>
    obtain ⟨tNow, tObs⟩ := ev
    obtain ⟨h1, h2⟩ := h
    refine List.Chain.cons ?_ (ih tObs h2)
    rw [earliestResume] at h1
    split at h1 <;> linarith

/-- Witness for `wait_if_needed_spacing`: a two-call run against a
limiter configured for half a request per second
(`min_interval = 2` seconds). -/
theorem wait_if_needed_spacing_witness :
    List.Chain (fun a b => min_interval (1 / 2) ≤ b - a) 0
      (([((1 : ℚ), (3 : ℚ)), (3, 5)]).map Prod.snd) :=
  wait_if_needed_spacing (min_interval (1 / 2)) 0 [(1, 3), (3, 5)]
    (by norm_num [ValidRun, earliestResume, min_interval])

/-! ## The grouping pipeline

`CPT-Code-Modification-Shortcode.py::fetch_cpt_sections_from_mongodb`
(lines 240-276) runs a MongoDB aggregation over the stream of
`(page, section-name)` pairs:
`$group` by section name accumulating `pages: {$addToSet: "$pages.page"}`;
then `$facet` into `similarSections` (container-set size `> 1`,
projected to `(sectionName, pages)`) and `uniqueSections`
(container-set size `== 1`, unwound, re-grouped by page with
`sectionNames: {$addToSet: ...}`, and `$sort {page: 1}`).
`$addToSet` accumulates the *set* of distinct values; MongoDB leaves
the order of that array (and of `$group`'s output) unspecified, and no
stage sorts the `pages` array of a `similarSections` entry.  The model
realises `$addToSet` as first-encounter-order deduplication
(`addToSet`), the order produced by a straightforward accumulator;
every set-level statement below is independent of that choice.
Containers (`κ`, pages) and items (`ι`, section names) are arbitrary
types with decidable equality; the `$sort` stage needs a linear order
on containers. -/

def addToSetAux {β : Type} [DecidableEq β] (seen : List β) : List β → List β
  | [] => []
  | a :: t =>
    if a ∈ seen then addToSetAux seen t else a :: addToSetAux (a :: seen) t

/-- `$addToSet` over a stream, realised in first-encounter order. -/
def addToSet {β : Type} [DecidableEq β] (l : List β) : List β :=
  addToSetAux [] l

theorem mem_addToSetAux {β : Type} [DecidableEq β] {b : β} :
    ∀ {seen l : List β}, b ∈ addToSetAux seen l ↔ (b ∈ l ∧ b ∉ seen) := by
  intro seen l
  induction l generalizing seen with
  | nil => simp [addToSetAux]
  | cons a t ih =>
    rw [addToSetAux]
    by_cases ha : a ∈ seen
    · rw [if_pos ha, ih]
      constructor
      · rintro ⟨hbt, hbs⟩
        exact ⟨List.mem_cons_of_mem a hbt, hbs⟩
      · rintro ⟨hbat, hbs⟩
        rcases List.mem_cons.mp hbat with hba | hbt
        · exact absurd (hba ▸ ha) hbs
        · exact ⟨hbt, hbs⟩
    · rw [if_neg ha]
      by_cases hba : b = a
      · subst hba
        simp [ih, ha]
      · simp only [List.mem_cons, hba, false_or]
        rw [ih]
        simp [List.mem_cons, hba]

theorem mem_addToSet {β : Type} [DecidableEq β] {b : β} {l : List β} :
    b ∈ addToSet l ↔ b ∈ l := by
  rw [addToSet, mem_addToSetAux]
  simp

theorem nodup_addToSetAux {β : Type} [DecidableEq β] :
    ∀ (seen l : List β), (addToSetAux seen l).Nodup := by
  intro seen l
  induction l generalizing seen with
  | nil => exact List.nodup_nil
  | cons a t ih =>
    rw [addToSetAux]
    by_cases ha : a ∈ seen
    · rw [if_pos ha]
      exact ih seen
    · rw [if_neg ha]
      refine List.Nodup.cons ?_ (ih (a :: seen))
      intro hmem
      exact (mem_addToSetAux.mp hmem).2 (List.mem_cons_self a seen)

theorem nodup_addToSet {β : Type} [DecidableEq β] (l : List β) :
    (addToSet l).Nodup :=
  nodup_addToSetAux [] l

theorem addToSet_perm {β : Type} [DecidableEq β] {l l' : List β}
    (h : l.Perm l') : (addToSet l).Perm (addToSet l') := by
  refine (List.perm_ext_iff_of_nodup (nodup_addToSet l) (nodup_addToSet l')).mpr ?_
  intro b
  rw [mem_addToSet, mem_addToSet]
  exact h.mem_iff

theorem addToSetAux_eq_self {β : Type} [DecidableEq β] :
    ∀ {seen l : List β}, l.Nodup → (∀ b ∈ l, b ∉ seen) →
      addToSetAux seen l = l := by
  intro seen l
  induction l generalizing seen with
  | nil => intro _ _; rfl
  | cons a t ih =>
    intro hnd hdis
    rw [addToSetAux, if_neg (hdis a (List.mem_cons_self a t))]
    refine congrArg (List.cons a) (ih (List.Nodup.of_cons hnd) ?_)
    intro b hb
    intro hbs
    rcases List.mem_cons.mp hbs with hba | hbseen
    · exact (List.nodup_cons.mp hnd).1 (hba ▸ hb)
    · exact hdis b (List.mem_cons_of_mem a hb) hbseen

theorem addToSet_eq_self {β : Type} [DecidableEq β] {l : List β}
    (h : l.Nodup) : addToSet l = l :=
  addToSetAux_eq_self h (by simp)

/-- The `$group` accumulator for one item: the set of containers paired
with it, in stream order. -/
def containersOf {κ ι : Type} [DecidableEq κ] [DecidableEq ι]
    (pairs : List (κ × ι)) (item : ι) : List κ :=
  addToSet ((pairs.filter (fun pr => pr.2 == item)).map Prod.fst)

/-- The `$group {_id: sectionName, pages: {$addToSet: page}}` stage:
one entry per distinct item. -/
def groupItems {κ ι : Type} [DecidableEq κ] [DecidableEq ι]
    (pairs : List (κ × ι)) : List (ι × List κ) :=
  (addToSet (pairs.map Prod.snd)).map (fun it => (it, containersOf pairs it))

/-- The `similarSections` facet: entries whose container set has size
`> 1`, projected to `(sectionName, pages)`.  No stage sorts `pages`. -/
def similarSections {κ ι : Type} [DecidableEq κ] [DecidableEq ι]
    (pairs : List (κ × ι)) : List (ι × List κ) :=
  (groupItems pairs).filter (fun e => decide (1 < e.2.length))

/-- The `uniqueSections` facet before its re-grouping: entries whose
container set is a singleton, unwound into `(page, sectionName)`
documents. -/
def uniquePairs {κ ι : Type} [DecidableEq κ] [DecidableEq ι]
    (pairs : List (κ × ι)) : List (κ × ι) :=
  (groupItems pairs).filterMap (fun e =>
    match e.2 with
    | [c] => some (c, e.1)
    | _ => none)

/-- The `uniqueSections` facet: re-group the singleton-container items
by page (`sectionNames: {$addToSet: ...}`), then `$sort {page: 1}`. -/
def uniqueSections {κ ι : Type} [DecidableEq κ] [DecidableEq ι]
    [LinearOrder κ] (pairs : List (κ × ι)) : List (κ × List ι) :=
  ((addToSet ((uniquePairs pairs).map Prod.fst)).map (fun c =>
      (c, addToSet (((uniquePairs pairs).filter
        (fun pr => pr.1 == c)).map Prod.snd)))).mergeSort
    (fun a b => decide (a.1 ≤ b.1))

/-- How often `item` occurs across the two output collections combined:
as a `similarSections` key plus as a member of a `uniqueSections`
bucket. -/
def outputCount {κ ι : Type} [DecidableEq κ] [DecidableEq ι]
    [LinearOrder κ] (pairs : List (κ × ι)) (item : ι) : Nat :=
  ((similarSections pairs).map Prod.fst).count item
    + ((uniqueSections pairs).flatMap Prod.snd).count item

section grouping

variable {κ ι : Type} [DecidableEq κ] [DecidableEq ι]

theorem groupItems_map_fst (pairs : List (κ × ι)) :
    (groupItems pairs).map Prod.fst = addToSet (pairs.map Prod.snd) := by
  rw [groupItems, List.map_map]
  exact List.map_id _

theorem mem_groupItems {pairs : List (κ × ι)} {e : ι × List κ} :
    e ∈ groupItems pairs
      ↔ e.1 ∈ pairs.map Prod.snd ∧ e.2 = containersOf pairs e.1 := by
  rw [groupItems, List.mem_map]
  constructor
  · rintro ⟨it, hit, rfl⟩
    exact ⟨mem_addToSet.mp hit, rfl⟩
  · rintro ⟨h1, h2⟩
    exact ⟨e.1, mem_addToSet.mpr h1, by rw [← h2]⟩

theorem mem_uniquePairs {pairs : List (κ × ι)} {c : κ} {it : ι} :
    (c, it) ∈ uniquePairs pairs
      ↔ it ∈ pairs.map Prod.snd ∧ containersOf pairs it = [c] := by
  rw [uniquePairs, List.mem_filterMap]
  constructor
  · rintro ⟨⟨i, cs⟩, he, hsome⟩
    match cs, hsome with
    | [c'], hsome =>
      obtain ⟨hc, hi⟩ := Prod.mk.inj (Option.some.inj hsome)
      subst hc; subst hi
      obtain ⟨h1, h2⟩ := mem_groupItems.mp he
      exact ⟨h1, h2.symm⟩
  · rintro ⟨h1, h2⟩
    exact ⟨(it, [c]), mem_groupItems.mpr ⟨h1, h2.symm⟩, rfl⟩

theorem uniquePairs_map_snd (pairs : List (κ × ι)) :
    (uniquePairs pairs).map Prod.snd
      = (addToSet (pairs.map Prod.snd)).filter
          (fun it => decide ((containersOf pairs it).length = 1)) := by
  rw [uniquePairs, List.map_filterMap, groupItems]
  have hstep : ∀ l : List ι,
      l.filterMap (fun it =>
        Option.map Prod.snd
          (match (it, containersOf pairs it).2 with
            | [c] => some (c, (it, containersOf pairs it).1)
            | _ => none))
        = l.filter (fun it => decide ((containersOf pairs it).length = 1)) := by
    intro l
    induction l with
    | nil => rfl
    | cons i t iht =>
      rw [List.filterMap_cons, List.filter_cons]
      cases hcs : containersOf pairs i with
      | nil => simpa [hcs] using iht
      | cons c cs' =>
        cases cs' with
        | nil => simpa [hcs] using congrArg (List.cons i) iht
        | cons c2 cs2 => simpa [hcs] using iht
  rw [List.filterMap_map]
  exact hstep (addToSet (pairs.map Prod.snd))

theorem nodup_uniquePairs_snd (pairs : List (κ × ι)) :
    ((uniquePairs pairs).map Prod.snd).Nodup := by
  rw [uniquePairs_map_snd]
  exact List.Nodup.filter _ (nodup_addToSet _)

theorem mem_uniquePairs_snd {pairs : List (κ × ι)} {it : ι} :
    it ∈ (uniquePairs pairs).map Prod.snd
      ↔ it ∈ pairs.map Prod.snd ∧ (containersOf pairs it).length = 1 := by
  rw [uniquePairs_map_snd, List.mem_filter, mem_addToSet]
  simp

theorem containersOf_ne_nil {pairs : List (κ × ι)} {it : ι}
    (h : it ∈ pairs.map Prod.snd) : containersOf pairs it ≠ [] := by
  obtain ⟨pr, hpr, hsnd⟩ := List.mem_map.mp h
  intro hnil
  have : pr.1 ∈ containersOf pairs it := by
    rw [containersOf, mem_addToSet]
    exact List.mem_map.mpr ⟨pr, List.mem_filter.mpr ⟨hpr, by simp [hsnd]⟩, rfl⟩
  rw [hnil] at this
  exact List.not_mem_nil pr.1 this

/-- Grouping by key partitions the stream: concatenating the per-key
item lists over a nodup covering key list is a permutation of the items
of the stream. -/
theorem flatMap_filter_perm :
    ∀ (keys : List κ) (up : List (κ × ι)), keys.Nodup →
      (∀ pr ∈ up, pr.1 ∈ keys) →
      (keys.flatMap (fun c => (up.filter (fun pr => pr.1 == c)).map Prod.snd)).Perm
        (up.map Prod.snd) := by
  intro keys
  induction keys with
  | nil =>
    intro up _ hcov
    cases up with
    | nil => simp
    | cons pr t => exact absurd (hcov pr (List.mem_cons_self pr t)) (by simp)
  | cons c keys' ih =>
    intro up hnd hcov
    rw [List.flatMap_cons]
    have hcnot : c ∉ keys' := (List.nodup_cons.mp hnd).1
    have hbody : ∀ c' ∈ keys',
        (up.filter (fun pr => pr.1 == c')).map Prod.snd
          = ((up.filter (fun pr => !(pr.1 == c))).filter
              (fun pr => pr.1 == c')).map Prod.snd := by
      intro c' hc'
      have hcc : c' ≠ c := fun h => hcnot (h ▸ hc')
      rw [List.filter_filter]
      refine congrArg (List.map Prod.snd) (List.filter_congr ?_)
      intro pr _
      by_cases hp : pr.1 = c'
      · simp [hp, hcc]
      · simp [hp]
    have hmap : keys'.flatMap
        (fun c' => (up.filter (fun pr => pr.1 == c')).map Prod.snd)
        = keys'.flatMap (fun c' =>
            ((up.filter (fun pr => !(pr.1 == c))).filter
              (fun pr => pr.1 == c')).map Prod.snd) := by
      rw [List.flatMap_def, List.flatMap_def]
      exact congrArg List.flatten (List.map_congr_left hbody)
    rw [hmap]
    have hrec := ih (up.filter (fun pr => !(pr.1 == c)))
      (List.Nodup.of_cons hnd)
      (by
        intro pr hpr
        obtain ⟨hup, hne⟩ := List.mem_filter.mp hpr
        rcases List.mem_cons.mp (hcov pr hup) with h1 | h2
        · rw [h1] at hne; simp at hne
        · exact h2)
    refine ((hrec.append_left _).trans ?_)
    rw [← List.map_append]
    refine List.Perm.map Prod.snd ?_
    exact List.filter_append_perm _ up

theorem count_eq_ite_of_nodup {β : Type} [DecidableEq β] {l : List β}
    (h : l.Nodup) (b : β) : l.count b = if b ∈ l then 1 else 0 := by
  by_cases hb : b ∈ l
  · rw [if_pos hb]
    exact List.count_eq_one_of_mem h hb
  · rw [if_neg hb]
    exact List.count_eq_zero.mpr hb

theorem similarSections_count (pairs : List (κ × ι)) (item : ι) :
    ((similarSections pairs).map Prod.fst).count item
      = if item ∈ pairs.map Prod.snd ∧ 1 < (containersOf pairs item).length
        then 1 else 0 := by
  rw [similarSections, groupItems, List.filter_map, List.map_map]
  have hid : (Prod.fst ∘ fun it => (it, containersOf pairs it)) = id := rfl
  rw [hid, List.map_id]
  have hcomp : ((fun e : ι × List κ => decide (1 < e.2.length))
      ∘ fun it => (it, containersOf pairs it))
      = fun it => decide (1 < (containersOf pairs it).length) := rfl
  rw [hcomp]
  by_cases hlen : 1 < (containersOf pairs item).length
  · rw [List.count_filter (by simpa using hlen)]
    rw [count_eq_ite_of_nodup (nodup_addToSet _) item]
    by_cases hmem : item ∈ pairs.map Prod.snd
    · rw [if_pos (mem_addToSet.mpr hmem), if_pos ⟨hmem, hlen⟩]
    · rw [if_neg (fun hc => hmem (mem_addToSet.mp hc)),
        if_neg (fun hc => hmem hc.1)]
  · rw [if_neg (fun hc => hlen hc.2)]
    rw [List.count_eq_zero]
    intro hmem
    obtain ⟨hm, hp⟩ := List.mem_filter.mp hmem
    exact hlen (by simpa using hp)

theorem uniqueSections_flatMap_perm [LinearOrder κ] (pairs : List (κ × ι)) :
    ((uniqueSections pairs).flatMap Prod.snd).Perm
      ((uniquePairs pairs).map Prod.snd) := by
  have h1 : ((uniqueSections pairs).flatMap Prod.snd).Perm
      (((addToSet ((uniquePairs pairs).map Prod.fst)).map (fun c =>
        (c, addToSet (((uniquePairs pairs).filter
          (fun pr => pr.1 == c)).map Prod.snd)))).flatMap Prod.snd) :=
    List.Perm.flatMap_right Prod.snd (List.mergeSort_perm _ _)
  refine h1.trans ?_
  have h2 : (((addToSet ((uniquePairs pairs).map Prod.fst)).map (fun c =>
        (c, addToSet (((uniquePairs pairs).filter
          (fun pr => pr.1 == c)).map Prod.snd)))).flatMap Prod.snd)
      = (addToSet ((uniquePairs pairs).map Prod.fst)).flatMap (fun c =>
          addToSet (((uniquePairs pairs).filter
            (fun pr => pr.1 == c)).map Prod.snd)) := by
    rw [List.flatMap_def, List.flatMap_def, List.map_map]
    rfl
  rw [h2]
  have h3 : (addToSet ((uniquePairs pairs).map Prod.fst)).flatMap (fun c =>
      addToSet (((uniquePairs pairs).filter (fun pr => pr.1 == c)).map Prod.snd))
      = (addToSet ((uniquePairs pairs).map Prod.fst)).flatMap (fun c =>
          ((uniquePairs pairs).filter (fun pr => pr.1 == c)).map Prod.snd) := by
    rw [List.flatMap_def, List.flatMap_def]
    refine congrArg List.flatten (List.map_congr_left ?_)
    intro c _
    refine addToSet_eq_self ?_
    refine List.Nodup.sublist ?_ (nodup_uniquePairs_snd pairs)
    exact List.Sublist.map Prod.snd (List.filter_sublist _)
  rw [h3]
  refine flatMap_filter_perm _ _ (nodup_addToSet _) ?_
  intro pr hpr
  rw [mem_addToSet]
  exact List.mem_map.mpr ⟨pr, hpr, rfl⟩

theorem uniqueSections_count [LinearOrder κ] (pairs : List (κ × ι)) (item : ι) :
    ((uniqueSections pairs).flatMap Prod.snd).count item
      = if item ∈ pairs.map Prod.snd ∧ (containersOf pairs item).length = 1
        then 1 else 0 := by
  rw [(uniqueSections_flatMap_perm pairs).count_eq]
  rw [count_eq_ite_of_nodup (nodup_uniquePairs_snd pairs)]
  by_cases h : item ∈ pairs.map Prod.snd ∧ (containersOf pairs item).length = 1
  · rw [if_pos (mem_uniquePairs_snd.mpr h), if_pos h]
  · rw [if_neg (fun hc => h (mem_uniquePairs_snd.mp hc)), if_neg h]

end grouping

/-! ## Claim C8 — grouping partition exactness -/

/-- C8: every item of the input stream appears exactly once across the
two facets combined (no duplication, no omission; items not in the
input appear zero times); an item whose container set has size `> 1`
appears as a `similarSections` entry carrying that container set, and
an item whose container set is the singleton `[c]` appears inside the
`uniqueSections` bucket of `c`. -/
theorem grouping_partition_exact {κ ι : Type} [DecidableEq κ] [DecidableEq ι]
    [LinearOrder κ] (pairs : List (κ × ι)) (item : ι) :
    (outputCount pairs item = if item ∈ pairs.map Prod.snd then 1 else 0)
    ∧ (item ∈ pairs.map Prod.snd → 1 < (containersOf pairs item).length →
        (item, containersOf pairs item) ∈ similarSections pairs)
    ∧ (∀ c : κ, item ∈ pairs.map Prod.snd → containersOf pairs item = [c] →
        ∃ l, (c, l) ∈ uniqueSections pairs ∧ item ∈ l) := by
  refine ⟨?_, ?_, ?_⟩
  · rw [outputCount, similarSections_count, uniqueSections_count]
    by_cases hmem : item ∈ pairs.map Prod.snd
    · have hne := containersOf_ne_nil hmem
      have hlen : 0 < (containersOf pairs item).length := List.length_pos.mpr hne
      rw [if_pos hmem]
      by_cases h1 : 1 < (containersOf pairs item).length
      · rw [if_pos ⟨hmem, h1⟩, if_neg (fun hc => by omega)]
      · rw [if_neg (fun hc => h1 hc.2), if_pos ⟨hmem, by omega⟩]
    · rw [if_neg hmem, if_neg (fun hc => hmem hc.1),
        if_neg (fun hc => hmem hc.1)]
  · intro hmem hlen
    rw [similarSections, List.mem_filter]
    exact ⟨mem_groupItems.mpr ⟨hmem, rfl⟩, by simpa using hlen⟩
  · intro c hmem hsing
    refine ⟨addToSet (((uniquePairs pairs).filter
        (fun pr => pr.1 == c)).map Prod.snd), ?_, ?_⟩
    · rw [uniqueSections, List.mem_mergeSort]
      refine List.mem_map.mpr ⟨c, ?_, rfl⟩
      rw [mem_addToSet]
      exact List.mem_map.mpr ⟨(c, item), mem_uniquePairs.mpr ⟨hmem, hsing⟩, rfl⟩
    · rw [mem_addToSet]
      refine List.mem_map.mpr ⟨(c, item), ?_, rfl⟩
      rw [List.mem_filter]
      exact ⟨mem_uniquePairs.mpr ⟨hmem, hsing⟩, by simp⟩

/-- Witness for `grouping_partition_exact` on the spec's example shape
`[(home, Hero), (about, Hero), (home, CTA)]` (containers and items
encoded as naturals: home = 0, about = 1, Hero = 10, CTA = 20). -/
theorem grouping_partition_exact_witness :
    outputCount [((0 : Nat), (10 : Nat)), (1, 10), (0, 20)] 10 = 1
    ∧ (10, containersOf [((0 : Nat), (10 : Nat)), (1, 10), (0, 20)] 10)
        ∈ similarSections [((0 : Nat), (10 : Nat)), (1, 10), (0, 20)]
    ∧ ∃ l, (0, l) ∈ uniqueSections [((0 : Nat), (10 : Nat)), (1, 10), (0, 20)]
        ∧ 20 ∈ l := by
  refine ⟨?_, ?_, ?_⟩
  · rw [(grouping_partition_exact [((0 : Nat), (10 : Nat)), (1, 10), (0, 20)] 10).1]
    decide
  · exact (grouping_partition_exact [((0 : Nat), (10 : Nat)), (1, 10), (0, 20)]
      10).2.1 (by decide) (by decide)
  · exact (grouping_partition_exact [((0 : Nat), (10 : Nat)), (1, 10), (0, 20)]
      20).2.2 0 (by decide) (by decide)

/-! ## Claim C9 — grouping determinism -/

/-- C9 counterexample: the containers inside a `similarSections` entry
are *not* sorted — no pipeline stage sorts the `$addToSet` array — and
their order follows the encounter order of the input, so permuting the
input pairs changes the produced entry: the grouping output is not
identical across permutations. -/
theorem similarSections_order_dependent :
    similarSections [((1 : Nat), (7 : Nat)), (0, 7)] = [(7, [1, 0])]
    ∧ similarSections [((0 : Nat), (7 : Nat)), (1, 7)] = [(7, [0, 1])]
    ∧ ¬ List.Sorted (· ≤ ·)
        ((similarSections [((1 : Nat), (7 : Nat)), (0, 7)]).flatMap Prod.snd) :=
  ⟨by decide, by decide, by decide⟩

/-- C9 (amended): the unique/shared *partition* is order-independent —
under any permutation of the input, each item's container set is the
same up to permutation, each `similarSections` entry reappears with a
permuted container list, and each `uniqueSections` bucket reappears
with a permuted item list — and the `uniqueSections` entries are sorted
by container (`$sort {page: 1}`); but the containers inside a
`similarSections` entry are left in `$addToSet` order (modelled:
first-encounter order), so they are neither sorted nor stable under
permutation of the input (`similarSections_order_dependent`). -/
theorem grouping_determinism {κ ι : Type} [DecidableEq κ] [DecidableEq ι]
    [LinearOrder κ] (pairs pairs' : List (κ × ι)) (hp : pairs.Perm pairs') :
    (∀ item, (containersOf pairs item).Perm (containersOf pairs' item))
    ∧ (∀ item cs, (item, cs) ∈ similarSections pairs →
        ∃ cs', (item, cs') ∈ similarSections pairs' ∧ cs.Perm cs')
    ∧ (∀ c l, (c, l) ∈ uniqueSections pairs →
        ∃ l', (c, l') ∈ uniqueSections pairs' ∧ l.Perm l')
    ∧ List.Sorted (· ≤ ·) ((uniqueSections pairs).map Prod.fst) := by
  have hcont : ∀ item, (containersOf pairs item).Perm (containersOf pairs' item) :=
    fun item => addToSet_perm (List.Perm.map _ (List.Perm.filter _ hp))
  refine ⟨hcont, ?_, ?_, ?_⟩
  · intro item cs hm
    obtain ⟨hg, hpred⟩ := List.mem_filter.mp hm
    obtain ⟨h1, h2⟩ := mem_groupItems.mp hg
    dsimp only at h1 h2 hpred
    refine ⟨containersOf pairs' item, ?_, ?_⟩
    · rw [similarSections, List.mem_filter]
      refine ⟨mem_groupItems.mpr ⟨(hp.map Prod.snd).mem_iff.mp h1, rfl⟩, ?_⟩
      have hlen := (hcont item).length_eq
      simp only [decide_eq_true_eq] at hpred ⊢
      rw [← hlen, ← h2]
      exact hpred
    · rw [h2]
      exact hcont item
  · intro c l hm
    have hup : (uniquePairs pairs).Perm (uniquePairs pairs') := by
      refine (List.perm_ext_iff_of_nodup
        (List.Nodup.of_map Prod.snd (nodup_uniquePairs_snd pairs))
        (List.Nodup.of_map Prod.snd (nodup_uniquePairs_snd pairs'))).mpr ?_
      rintro ⟨cx, ix⟩
      rw [mem_uniquePairs, mem_uniquePairs]
      constructor
      · rintro ⟨hm1, hs1⟩
        refine ⟨(hp.map Prod.snd).mem_iff.mp hm1, ?_⟩
        have hpx := (hcont ix).symm
        rw [hs1] at hpx
        exact List.perm_singleton.mp hpx
      · rintro ⟨hm1, hs1⟩
        refine ⟨(hp.map Prod.snd).mem_iff.mpr hm1, ?_⟩
        have hpx := hcont ix
        rw [hs1] at hpx
        exact List.perm_singleton.mp hpx
    rw [uniqueSections, List.mem_mergeSort] at hm
    obtain ⟨c₀, hc₀, heq⟩ := List.mem_map.mp hm
    obtain ⟨hcc, hl⟩ := Prod.mk.inj heq
    subst hcc
    refine ⟨addToSet (((uniquePairs pairs').filter
        (fun pr => pr.1 == c₀)).map Prod.snd), ?_, ?_⟩
    · rw [uniqueSections, List.mem_mergeSort]
      refine List.mem_map.mpr ⟨c₀, ?_, rfl⟩
      rw [mem_addToSet]
      rw [mem_addToSet] at hc₀
      exact ((hup.map Prod.fst).mem_iff).mp hc₀
    · rw [← hl]
      exact addToSet_perm (List.Perm.map _ (List.Perm.filter _ hup))
  · rw [uniqueSections]
    show List.Pairwise _ _
    rw [List.pairwise_map]
    refine List.Pairwise.imp ?_
      (List.sorted_mergeSort ?_ ?_
        ((addToSet ((uniquePairs pairs).map Prod.fst)).map (fun c =>
          (c, addToSet (((uniquePairs pairs).filter
            (fun pr => pr.1 == c)).map Prod.snd)))))
    · intro a b hab
      simpa using hab
    · intro a b c hab hbc
      simp only [decide_eq_true_eq] at hab hbc ⊢
      exact le_trans hab hbc
    · intro a b
      rcases le_total a.1 b.1 with h | h <;> simp [h]

/-- Witness for `grouping_determinism` on a concrete permuted pair of
inputs. -/
theorem grouping_determinism_witness :
    (containersOf [((0 : Nat), (10 : Nat)), (1, 10)] 10).Perm
        (containersOf [((1 : Nat), (10 : Nat)), (0, 10)] 10)
    ∧ (∃ cs', (10, cs') ∈ similarSections [((1 : Nat), (10 : Nat)), (0, 10)]
        ∧ ([0, 1] : List Nat).Perm cs')
    ∧ List.Sorted (· ≤ ·)
        ((uniqueSections [((0 : Nat), (10 : Nat)), (1, 20)]).map Prod.fst) :=
  ⟨(grouping_determinism [((0 : Nat), (10 : Nat)), (1, 10)]
      [((1 : Nat), (10 : Nat)), (0, 10)] (by decide)).1 10,
    (grouping_determinism [((0 : Nat), (10 : Nat)), (1, 10)]
      [((1 : Nat), (10 : Nat)), (0, 10)] (by decide)).2.1 10 [0, 1] (by decide),
    (grouping_determinism [((0 : Nat), (10 : Nat)), (1, 20)]
      [((0 : Nat), (10 : Nat)), (1, 20)] (List.Perm.refl _)).2.2.2⟩
